import Mathlib

/-!
libtfs: files inside a tar archive behind the stdio calls.

A shallow embedding of `ctar.h` (the tar directory reader) and `tfs.c` (the
virtual `fopen`/`fread`/`fseek`/`ftell` layer), followed by theorems about them.

Conventions of the embedding.

* Bytes are natural numbers below 256; a memory region is a `List Nat`, and a
  read past the end of a list yields the byte 0.
* The C integer types are those of an LP64 platform: `int` and `unsigned int`
  have 32 bits, `long` and `size_t` have 64 bits, plain `char` is signed.
  Arithmetic is written on `Nat`/`Int` with an explicit reduction wherever the
  C type wraps.
* A stdio stream is its byte content and its position. Reads of an ordinary
  file deliver every byte that is available (no transient short reads).
* Allocation (`calloc`) is assumed to succeed.
* Loops are structural recursions on a fuel argument and return `none` when the
  fuel runs out; the entry points pass a fuel that the theorems show sufficient.
-/

namespace Tfs

/-! ## C integer conversions -/

/-- Conversion of an integer to `unsigned int` (32 bits). -/
def toUInt (x : Int) : Nat := (x % 4294967296).toNat

/-- Conversion of an integer to `int` (32 bits, two's complement). -/
def toInt (x : Int) : Int := (x + 2147483648) % 4294967296 - 2147483648

/-- Conversion of an integer to `size_t` / `unsigned long` (64 bits). -/
def toULong (x : Int) : Nat := (x % 18446744073709551616).toNat

/-- Conversion of an integer to `long` (64 bits, two's complement). -/
def toLong (x : Int) : Int :=
  (x + 9223372036854775808) % 18446744073709551616 - 9223372036854775808

/-- Value of a byte read through a plain (signed) `char`. -/
def charVal (b : Nat) : Int := if b < 128 then (b : Int) else (b : Int) - 256

/-! ## errno values (Linux numbering) -/

def ENOENT : Nat := 2
def ENOMEM : Nat := 12
def ESPIPE : Nat := 29
def EROFS : Nat := 30
def ENOSR : Nat := 63

/-! ## stdio streams -/

def SEEK_SET : Nat := 0
def SEEK_CUR : Nat := 1
def SEEK_END : Nat := 2

/-- An open stdio stream on an ordinary file: `ident` stands for the address of
the `FILE` object, `data` is the file content, `pos` the file position. -/
structure FILE where
  ident : Nat
  data : List Nat
  pos : Nat
deriving DecidableEq, Repr

/-- The stdio call `fseek(fp, offset, whence)`: fails (returns -1, position
unchanged) on an unknown `whence` or a negative target position. -/
def fseek (fp : FILE) (offset : Int) (whence : Nat) : Int × FILE :=
  let target : Option Int :=
    if whence = SEEK_SET then some offset
    else if whence = SEEK_CUR then some ((fp.pos : Int) + offset)
    else if whence = SEEK_END then some ((fp.data.length : Int) + offset)
    else none
  match target with
  | some t => if t < 0 then (-1, fp) else (0, { fp with pos := t.toNat })
  | none => (-1, fp)

/-- The stdio call `ftell(fp)`. -/
def ftell (fp : FILE) : Int := (fp.pos : Int)

/-- The stdio call `fread(ptr, size, nmemb, fp)`: the bytes stored at `ptr`, the
number of whole items they make up, and the stream afterwards. -/
def fread (fp : FILE) (size nmemb : Nat) : Nat × List Nat × FILE :=
  let bytes := (fp.data.drop fp.pos).take (size * nmemb)
  (bytes.length / size, bytes, { fp with pos := fp.pos + bytes.length })

/-! ## C strings -/

/-- The C string that starts at the beginning of a memory region. -/
def cstr (s : List Nat) : List Nat := s.takeWhile (fun c => c != 0)

/-- The libc call `strlen`. -/
def strlen (s : List Nat) : Nat := (cstr s).length

/-- The libc call `strncmp(s1, s2, n)`. -/
def strncmp : List Nat → List Nat → Nat → Int
  | _, _, 0 => 0
  | s1, s2, n + 1 =>
    let c1 := s1.headD 0
    let c2 := s2.headD 0
    if c1 ≠ c2 then (c1 : Int) - (c2 : Int)
    else if c1 = 0 then 0
    else strncmp s1.tail s2.tail n

/-- The `MAX(x, y)` of `ctar.h`. -/
def MAX (x y : Nat) : Nat := if x > y then x else y

/-! ## ctar.h -/

def BLOCKSIZE : Nat := 512
def RECORDSIZE : Nat := 10240

def REGULAR : Nat := 0
def NORMAL : Nat := 48
def HARDLINK : Nat := 49
def SYMLINK : Nat := 50
def CHAR : Nat := 51
def BLOCK : Nat := 52
def DIRECTORY : Nat := 53
def FIFO : Nat := 54
def CONTIGUOUS : Nat := 55

/-- One node of the `struct ctar_t` list. The union of header views is kept as
the raw 512-byte `block`; the named fields below are windows into it. -/
structure ctar_t where
  original_name : List Nat
  begin : Nat
  block : List Nat
deriving DecidableEq, Repr

/-- The memory seen through `entry->name` (offset 0 of the block). Used as a C
string it runs up to the first NUL of the block, so it is the content of the
100-byte name field whenever that field holds a NUL. -/
def ctar_t.name (e : ctar_t) : List Nat := e.block

/-- The memory seen through `entry->size` (offset 124 of the block). -/
def ctar_t.size (e : ctar_t) : List Nat := e.block.drop 124

/-- The byte `entry->type` (offset 156 of the block). -/
def ctar_t.type (e : ctar_t) : Nat := e.block.getD 156 0

/-- The loop of `ctar_oct2uint`: `while ((i < size) && oct[i])
out = (out << 3) | (unsigned int)(oct[i++] - '0')`. -/
def ctar_oct2uint_loop : Nat → List Nat → Nat → Nat
  | 0, _, out => out
  | size + 1, oct, out =>
    if oct.headD 0 = 0 then out
    else ctar_oct2uint_loop size oct.tail
      (((out <<< 3) % 4294967296) ||| toUInt (charVal (oct.headD 0) - 48))

/-- The function `ctar_oct2uint(oct, size)`. -/
def ctar_oct2uint (oct : List Nat) (size : Nat) : Nat :=
  ctar_oct2uint_loop size oct 0

/-- The macro `ctar_getsize(archive)` for a non-null entry. -/
def ctar_getsize (e : ctar_t) : Nat := ctar_oct2uint e.size 11

/-- The function `ctar_iszeroed(buf, size)`. -/
def ctar_iszeroed (buf : List Nat) (size : Nat) : Bool :=
  (buf.take size).all (fun c => c == 0)

/-- The loop of `ctar_read_size`: keep calling `fread` for the missing bytes
until `size` bytes are in or a call delivers nothing. -/
def ctar_read_size_loop (size : Nat) : Nat → FILE → List Nat → List Nat × FILE
  | 0, fp, buf => (buf, fp)
  | fuel + 1, fp, buf =>
    if buf.length < size then
      let r := fread fp 1 (size - buf.length)
      if r.1 > 0 then ctar_read_size_loop size fuel r.2.2 (buf ++ r.2.1)
      else (buf, r.2.2)
    else (buf, fp)

/-- The function `ctar_read_size(fp, buf, size)`: the bytes obtained (their
number is the return value `got`) and the stream afterwards. Every productive
round adds a byte, so `size` rounds of fuel cover the loop. -/
def ctar_read_size (fp : FILE) (size : Nat) : List Nat × FILE :=
  ctar_read_size_loop size (size + 1) fp []

/-- The function `ctar_exists(archive, filename, ori)`: first node whose name
compares equal to `filename`. -/
def ctar_exists : List ctar_t → List Nat → Bool → Option ctar_t
  | [], _, _ => none
  | e :: rest, filename, ori =>
    if ori then
      if strncmp e.original_name filename
          (MAX (strlen e.original_name) (strlen filename) + 1) = 0 then some e
      else ctar_exists rest filename ori
    else
      if strncmp e.name filename (MAX (strlen e.name) (strlen filename) + 1) = 0 then some e
      else ctar_exists rest filename ori

/-- Lines 195-227 of `ctar_read`: obtain the block that is to be decoded as the
next header. The fresh node is zero-filled; it is read into only when `update`
is set. Left: the loop is left with this result (return value, list, stream).
Right: the header block, the stream after it, and the new value of `update`. -/
def ctar_read_head (fp : FILE) (offset : Nat) (count : Int) (update : Bool)
    (archive : List ctar_t) : (Int × List ctar_t × FILE) ⊕ (List Nat × FILE × Bool) :=
  let r1 := if update then ctar_read_size fp 512 else (List.replicate 512 0, fp)
  if update && r1.1.length != 512 then .inl (count, archive, r1.2)
  else if ctar_iszeroed r1.1 512 then
    let r2 := ctar_read_size r1.2 512
    if r2.1.length != 512 then .inl (count, archive, r2.2)
    else if ctar_iszeroed r2.1 512 then
      let s := fseek r2.2 ((RECORDSIZE - offset % RECORDSIZE : Nat) : Int) SEEK_CUR
      if s.1 = -1 then .inl (-1, archive, s.2) else .inl (count, archive, s.2)
    else .inr (r2.1, r2.2, false)
  else .inr (r1.1, r1.2, true)

/-- Lines 229-245 of `ctar_read`: the node for a header block found while the
offset counter is `offset`, the counter afterwards, and the outcome of the
`fseek` over the data blocks. The counter and `jump` are `unsigned int`. -/
def ctar_read_entry (fp : FILE) (offset : Nat) (block : List Nat) :
    ctar_t × Nat × (Int × FILE) :=
  let jump0 := ctar_oct2uint (block.drop 124) 11
  let jump := if jump0 % 512 ≠ 0 then (jump0 + (512 - jump0 % 512)) % 4294967296 else jump0
  ({ original_name := List.replicate 100 0, begin := offset, block := block },
   (offset + (512 + jump)) % 4294967296,
   fseek fp (jump : Int) SEEK_CUR)

/-- The `for` loop of `ctar_read`; `archive` is the list linked so far. -/
def ctar_read_loop : Nat → FILE → Nat → Int → Bool → List ctar_t →
    Option (Int × List ctar_t × FILE)
  | 0, _, _, _, _, _ => none
  | fuel + 1, fp, offset, count, update, archive =>
    match ctar_read_head fp offset count update archive with
    | .inl r => some r
    | .inr (block, fp1, update1) =>
      let e := ctar_read_entry fp1 offset block
      if e.2.2.1 = -1 then some (-1, archive ++ [e.1], e.2.2.2)
      else ctar_read_loop fuel e.2.2.2 e.2.1 (count + 1) update1 (archive ++ [e.1])

/-- The function `ctar_read(fp, archive, verbosity)` for non-null `fp` and
`archive`; the list argument is `*archive` (empty for a null pointer). Result:
return value, `*archive` afterwards, stream afterwards. Every round that
continues has read 512 bytes of the file, hence the fuel. -/
def ctar_read (fp : FILE) (archive : List ctar_t) : Option (Int × List ctar_t × FILE) :=
  if archive.isEmpty then ctar_read_loop (fp.data.length + 1) fp 0 0 true []
  else some (-1, archive, fp)

/-- The function `ctar_istarfile(fp)` for non-null `fp`. -/
def ctar_istarfile (fp : FILE) : Bool × FILE :=
  let prev_pos := toULong (ftell fp)
  let s := fseek fp (-1024) SEEK_END
  if s.1 ≠ 0 then (false, s.2)
  else
    let r := fread s.2 1024 1
    let back := fseek r.2.2 (toLong prev_pos) SEEK_SET
    if r.1 ≠ 1 then (false, back.2) else (ctar_iszeroed r.2.1 1024, back.2)

/-! ## tfs.h / tfs.c -/

def TFS_PATH_PREFIX : Nat := 64
def TFS_MAGIC : Int := -134774913

/-- The struct `TFS_FILE`; `base` is the address of the backing `FILE` object
(`none` for a null pointer). -/
structure TFS_FILE where
  magic : Int
  base : Option Nat
  data_begin : Nat
  data_len : Nat
  now_pos : Nat
  _errno : Nat
deriving DecidableEq, Repr

/-- What a `FILE*` handed to the tfs calls points to: a `TFS_FILE` (recognised
by its magic number) or an ordinary stdio stream. -/
inductive Stream where
  | tfs (stream : TFS_FILE)
  | std (fp : FILE)
deriving DecidableEq, Repr

/-- The process-wide variables of `tfs.c` together with `errno`. -/
structure tfs_state where
  tfs_rootentry : List ctar_t
  tfs_currfile : Option FILE
  errno : Nat
deriving DecidableEq, Repr

/-- The file system behind the ordinary `fopen`. Opening the empty path fails
(POSIX: `ENOENT`). The effect of ordinary calls on `errno` is not modelled. -/
structure OS where
  fopen : List Nat → List Nat → Option FILE
  fopen_empty : ∀ mode, fopen [] mode = none

/-- The function `tfs_inittarfile(pathname)`. -/
def tfs_inittarfile (os : OS) (st : tfs_state) (pathname : List Nat) : Option tfs_state :=
  match os.fopen (cstr pathname) [114, 98] with
  | none => some st
  | some fp =>
    let t := ctar_istarfile fp
    if t.1 then
      match ctar_read t.2 st.tfs_rootentry with
      | none => none
      | some r => some { st with tfs_rootentry := r.2.1, tfs_currfile := some r.2.2 }
    else some st

/-- The function `tfs_fopen(pathname, mode)` for non-null arguments: the
returned pointer (`none` for null) and the process state afterwards. -/
def tfs_fopen (os : OS) (st : tfs_state) (pathname mode : List Nat) :
    Option Stream × tfs_state :=
  if pathname.headD 0 = 0 then (none, st)
  else if pathname.headD 0 = TFS_PATH_PREFIX then
    if pathname.getD 1 0 ≠ 47 then (none, { st with errno := ENOENT })
    else if st.tfs_rootentry.isEmpty then (none, { st with errno := ENOMEM })
    else
      match ctar_exists st.tfs_rootentry (pathname.drop 2) false with
      | none => (none, { st with errno := ENOENT })
      | some entry =>
        if entry.type = REGULAR ∨ entry.type = NORMAL ∨ entry.type = CONTIGUOUS then
          (some (Stream.tfs
            { magic := TFS_MAGIC
              base := st.tfs_currfile.map FILE.ident
              data_begin := (entry.begin + 512) % 4294967296
              data_len := ctar_getsize entry
              now_pos := 0
              _errno := 0 }), st)
        else (none, st)
  else ((os.fopen (cstr pathname) (cstr mode)).map Stream.std, st)

/-- The `while` loop of `tfs_fread`: `count`, the bytes stored from `ptr` on
(`off` is their number), the handle and the backing stream. `count` is an `int`:
`++count` wraps at 2^31. -/
def tfs_fread_loop (size : Nat) : Nat → FILE → TFS_FILE → Int → List Nat →
    Option (Int × List Nat × TFS_FILE × FILE)
  | 0, _, _, _, _ => none
  | fuel + 1, base, stream, count, out =>
    if stream.now_pos < stream.data_len then
      let remain_size := stream.data_len - stream.now_pos
      let size_to_read := if size ≤ remain_size then size else remain_size
      let r := fread base 1 size_to_read
      if r.1 = 0 then some (count, out, stream, r.2.2)
      else tfs_fread_loop size fuel r.2.2
        { stream with now_pos := stream.now_pos + r.1 } (toInt (count + 1)) (out ++ r.2.1)
    else some (count, out, stream, base)

/-- Outcome of `tfs_fread`: return value, bytes stored from `ptr` on, the
handle, the backing stream and `errno` afterwards. -/
structure tfs_fread_result where
  ret : Nat
  out : List Nat
  stream : Stream
  base : FILE
  errno : Nat
deriving DecidableEq, Repr

/-- The function `tfs_fread(ptr, size, nmemb, stream)`; `ptr` tells whether the
buffer pointer is non-null and `base` is the `FILE` object that a virtual
handle points to. Each round of the loop advances the cursor, so the distance
to `data_len` bounds the rounds. The `int count` is returned as `size_t`. -/
def tfs_fread (ptr : Bool) (size nmemb : Nat) (h : Stream) (base : FILE) (errno : Nat) :
    Option tfs_fread_result :=
  match h with
  | .tfs stream =>
    if !ptr then some ⟨0, [], h, base, ENOSR⟩
    else
      let s := fseek base (toLong (stream.data_begin + stream.now_pos)) SEEK_SET
      if s.1 ≠ 0 then some ⟨0, [], h, s.2, errno⟩
      else
        match tfs_fread_loop size (stream.data_len - stream.now_pos + 1) s.2 stream 0 [] with
        | none => none
        | some r => some ⟨toULong r.1, r.2.1, .tfs r.2.2.1, r.2.2.2, errno⟩
  | .std fp =>
    let r := fread fp size nmemb
    some ⟨r.1, r.2.1, .std r.2.2, base, errno⟩

/-- The function `tfs_fseek(stream, offset, whence)`: return value, handle and
`errno` afterwards. `offset` is a `long`; sums with `size_t` operands are formed
in `unsigned long` and converted back, and the negation `-offset` is taken in
`long`, where it wraps for `LONG_MIN`. -/
def tfs_fseek (h : Stream) (offset : Int) (whence : Nat) (errno : Nat) : Int × Stream × Nat :=
  match h with
  | .tfs stream =>
    if whence = SEEK_SET then
      if offset < 0 ∨ offset > toLong stream.data_len then
        (-1, .tfs { stream with _errno := ESPIPE }, ESPIPE)
      else (0, .tfs { stream with now_pos := toULong offset }, errno)
    else if whence = SEEK_CUR then
      let offset1 := toLong ((toULong offset + stream.now_pos : Nat) : Int)
      if offset1 < 0 ∨ offset1 > toLong stream.data_len then
        (-1, .tfs { stream with _errno := ESPIPE }, ESPIPE)
      else (0, .tfs { stream with now_pos := toULong offset1 }, errno)
    else if whence = SEEK_END then
      if toLong (-offset) > toLong stream.data_len then
        (-1, .tfs { stream with _errno := ESPIPE }, ESPIPE)
      else
        let offset1 := toLong ((toULong offset + stream.data_len : Nat) : Int)
        let offset2 := toLong ((toULong offset1 % toULong (stream.data_len + 1) : Nat) : Int)
        (0, .tfs { stream with now_pos := toULong offset2 }, errno)
    else (-1, h, ESPIPE)
  | .std fp =>
    let r := fseek fp offset whence
    (r.1, .std r.2, errno)

/-- The function `tfs_ftell(stream)`. -/
def tfs_ftell (h : Stream) : Int :=
  match h with
  | .tfs stream => toLong stream.now_pos
  | .std fp => ftell fp

/-- The stdio call `ferror(fp)`; ordinary streams of the model never fail. -/
def ferror (_fp : FILE) : Nat := 0

/-- The stdio call `clearerr(fp)`. -/
def clearerr (fp : FILE) : FILE := fp

/-- The function `tfs_fwrite(ptr, size, nmemb, stream)` on a virtual handle:
the return value `(size_t) -1`, the handle and `errno` afterwards. -/
def tfs_fwrite (stream : TFS_FILE) : Nat × TFS_FILE × Nat :=
  (18446744073709551615, { stream with _errno := EROFS }, EROFS)

/-- The function `tfs_clearerr(stream)`. -/
def tfs_clearerr (h : Stream) : Stream :=
  match h with
  | .tfs stream => .tfs { stream with _errno := 0 }
  | .std fp => .std (clearerr fp)

/-- The function `tfs_ferror(stream)`. -/
def tfs_ferror (h : Stream) : Nat :=
  match h with
  | .tfs stream => stream._errno
  | .std fp => ferror fp

/-- The function `tfs_deinit()`. `ctar_free` releases the nodes of the list, but
the variable `tfs_rootentry` is not reset and keeps pointing at them; the model
keeps the list, so a later read through the stale pointer sees the old nodes
(in C such a read is undefined). The stream is not closed. -/
def tfs_deinit (st : tfs_state) : tfs_state :=
  match st.tfs_currfile with
  | some _ => { st with tfs_currfile := none }
  | none => st

/-- The `while` loop of `tfs_fread` with the stdio call `fread(ptr + off, 1, n,
base)` left open: `phys base n` is what that call delivers (item count, bytes,
stream afterwards). `tfs_fread_loop` is the instance with the `fread` above. -/
def tfs_fread_loop_with (phys : FILE → Nat → Nat × List Nat × FILE) (size : Nat) :
    Nat → FILE → TFS_FILE → Int → List Nat → Option (Int × List Nat × TFS_FILE × FILE)
  | 0, _, _, _, _ => none
  | fuel + 1, base, stream, count, out =>
    if stream.now_pos < stream.data_len then
      let remain_size := stream.data_len - stream.now_pos
      let size_to_read := if size ≤ remain_size then size else remain_size
      let r := phys base size_to_read
      if r.1 = 0 then some (count, out, stream, r.2.2)
      else tfs_fread_loop_with phys size fuel r.2.2
        { stream with now_pos := stream.now_pos + r.1 } (toInt (count + 1)) (out ++ r.2.1)
    else some (count, out, stream, base)

/-! ## Vocabulary of the specification -/

/-- Number of physical reads that move `n` bytes in chunks of at most `size`
bytes: `n / size` rounded up. -/
def chunks (size n : Nat) : Nat := (n + size - 1) / size

/-- The entry that the lookup of the code settles on: the first one in scan
order for which the C string that starts at `entry->name` (it runs past the
100-byte name field when that field holds no NUL) equals the C string held in
`n`. For the stored names of the specification see `firstStored`. -/
def firstNamed (archive : List ctar_t) (n : List Nat) : Option ctar_t :=
  archive.find? (fun e => decide (cstr e.name = cstr n))

/-- The entry types that `tfs_fopen` serves: regular file (tag NUL or '0') and
contiguous file (tag '7'). -/
def isFileLike (e : ctar_t) : Prop :=
  e.type = REGULAR ∨ e.type = NORMAL ∨ e.type = CONTIGUOUS

instance isFileLike_decidable (e : ctar_t) : Decidable (isFileLike e) := by
  unfold isFileLike; infer_instance

/-- The handle that `tfs_fopen` builds for entry `e` while the process state is `st`. -/
def handleFor (st : tfs_state) (e : ctar_t) : TFS_FILE :=
  { magic := TFS_MAGIC
    base := st.tfs_currfile.map FILE.ident
    data_begin := (e.begin + 512) % 4294967296
    data_len := ctar_getsize e
    now_pos := 0
    _errno := 0 }

/-- The stored name of an entry: the content of the 100-byte name field of its
header, up to the first NUL of the field. -/
def storedName (e : ctar_t) : List Nat := cstr (e.block.take 100)

/-- First entry in scan order whose stored name is `n`. -/
def firstStored (archive : List ctar_t) (n : List Nat) : Option ctar_t :=
  archive.find? (fun e => decide (storedName e = n))

/-- The lookups in which a name of 100 bytes that fills its field plays no
part: the name asked for has fewer than 100 bytes, or every name field of the
directory holds a NUL. -/
def nameFits (archive : List ctar_t) (n : List Nat) : Prop :=
  n.length < 100 ∨ ∀ e ∈ archive, (0 : Nat) ∈ e.block.take 100

instance nameFits_decidable (archive : List ctar_t) (n : List Nat) :
    Decidable (nameFits archive n) := by
  unfold nameFits; infer_instance

/-- The base-8 value of a digit string, most significant digit first: the sum
of d_i * 8^(k-1-i). -/
def octalValue : List Nat → Nat
  | [] => 0
  | d :: ds => d * 8 ^ ds.length + octalValue ds

/-! ## Well-formed archives -/

/-- An all-zero block. -/
def zeroBlock : List Nat := List.replicate 512 0

/-- One member of an archive: its header block and the data blocks after it. -/
structure Member where
  hdr : List Nat
  data : List Nat

/-- The size that the size field of the member's header decodes to. -/
def Member.size (m : Member) : Nat := ctar_oct2uint (m.hdr.drop 124) 11

/-- A member as the specification describes it: a 512-byte header that is not
all zero, followed by ceil(size/512) blocks of arbitrary data. -/
def Member.wellFormed (m : Member) : Prop :=
  m.hdr.length = 512 ∧ ctar_iszeroed m.hdr 512 = false ∧
    m.data.length = 512 * ((m.size + 511) / 512)

/-- The members laid out one after the other. -/
def memberBytes : List Member → List Nat
  | [] => []
  | m :: ms => m.hdr ++ (m.data ++ memberBytes ms)

/-- A stream made of the members followed by two all-zero blocks. -/
def archiveBytes (ms : List Member) : List Nat :=
  memberBytes ms ++ (zeroBlock ++ zeroBlock)

/-- The `jump` that `ctar_read` computes from a header block (in `unsigned int`). -/
def jumpOf (block : List Nat) : Nat :=
  if ctar_oct2uint (block.drop 124) 11 % 512 ≠ 0 then
    (ctar_oct2uint (block.drop 124) 11 + (512 - ctar_oct2uint (block.drop 124) 11 % 512))
      % 4294967296
  else ctar_oct2uint (block.drop 124) 11

/-- The nodes that `ctar_read` links for the members when its offset counter
starts at `offset`. -/
def scanEntries : Nat → List Member → List ctar_t
  | _, [] => []
  | offset, m :: ms =>
    { original_name := List.replicate 100 0, begin := offset, block := m.hdr } ::
      scanEntries ((offset + (512 + jumpOf m.hdr)) % 4294967296) ms

/-- The scan meets a short read in the round that starts at `fp`: fewer than
512 bytes are left for the block that the round reads, or the round reads an
all-zero block first and fewer than 512 bytes follow it. (With `update` unset
the round does not read into its node first.) -/
def shortRead (fp : FILE) (update : Bool) : Prop :=
  fp.data.length < fp.pos + 512 ∨
    (update = true ∧ ctar_iszeroed ((fp.data.drop fp.pos).take 512) 512 = true ∧
      fp.data.length < fp.pos + 1024)

instance shortRead_decidable (fp : FILE) (update : Bool) : Decidable (shortRead fp update) := by
  unfold shortRead; infer_instance

/-! ## Example data -/

/-- An operating system without any file. -/
def noFiles : OS where
  fopen := fun _ _ => none
  fopen_empty := fun _ => rfl

/-- An operating system whose only file is `t` (byte 116), with the given content. -/
def oneFile (content : List Nat) : OS where
  fopen := fun p _ => if p = [116] then some { ident := 1, data := content, pos := 0 } else none
  fopen_empty := fun _ => rfl

/-- A 512-byte header block with the given name, size digits and type byte, all
other fields zero. -/
def exampleHeader (name size : List Nat) (type : Nat) : List Nat :=
  name ++ List.replicate (124 - name.length) 0 ++ size ++ List.replicate (32 - size.length) 0
    ++ [type] ++ List.replicate 355 0

/-- The name `notes.txt`. -/
def notesName : List Nat := [110, 111, 116, 101, 115, 46, 116, 120, 116]

/-- Header of a regular file `notes.txt` of 10 bytes (octal 12). -/
def notesHeader : List Nat :=
  exampleHeader notesName [48, 48, 48, 48, 48, 48, 48, 48, 48, 49, 50] 48

/-- The ten bytes `0123456789`. -/
def notesData : List Nat := [48, 49, 50, 51, 52, 53, 54, 55, 56, 57]

/-- The member `notes.txt`: its header and one data block. -/
def notesMember : Member :=
  { hdr := notesHeader, data := notesData ++ List.replicate 502 0 }

/-- A tar archive with the single member `notes.txt` (2048 bytes). -/
def notesArchive : List Nat := archiveBytes [notesMember]

/-- The directory entry of `notes.txt`. -/
def notesEntry : ctar_t :=
  { original_name := List.replicate 100 0, begin := 0, block := notesHeader }

/-- The backing stream of `notesArchive` as the scan leaves it. -/
def notesFile : FILE := { ident := 1, data := notesArchive, pos := 11264 }

/-- Process state with `notesArchive` loaded. -/
def notesState : tfs_state :=
  { tfs_rootentry := [notesEntry], tfs_currfile := some notesFile, errno := 0 }

/-- The handle that opening `@/notes.txt` yields. -/
def notesHandle : TFS_FILE :=
  { magic := TFS_MAGIC, base := some 1, data_begin := 512, data_len := 10, now_pos := 0,
    _errno := 0 }

/-- Process state after loading an archive that is just the two terminating
zero blocks: the stream is retained, the directory is empty. -/
def emptyArchiveState : tfs_state :=
  { tfs_rootentry := []
    tfs_currfile := some { ident := 1, data := List.replicate 1024 0, pos := 11264 }
    errno := 0 }

/-- A stream without a complete terminator: the header of `notes.txt` (size 10)
followed by two zero blocks only, so that the scan skips the first as data and
finds a single zero block before the end of the stream. -/
def truncatedArchive : List Nat := notesHeader ++ (zeroBlock ++ zeroBlock)

/-- The member of `truncatedArchive`: the header of `notes.txt` and, as its data
block, the first of the two zero blocks. -/
def truncatedMember : Member := { hdr := notesHeader, data := zeroBlock }

/-- One round of the loop of `ctar_oct2uint` on the byte `c`:
`(out << 3) | (unsigned int)(c - '0')` in 32-bit arithmetic. -/
def octStep (out c : Nat) : Nat :=
  ((out <<< 3) % 4294967296) ||| toUInt (charVal c - 48)

/-- An entry whose 100-byte name field is filled by the name `aaa...a` (100
times the byte 97) without a terminating NUL, followed by the mode field
`0000644` and its NUL; size field `0`, type '0'. -/
def longNameEntry : ctar_t :=
  { original_name := List.replicate 100 0
    begin := 0
    block := exampleHeader (List.replicate 100 97 ++ [48, 48, 48, 48, 54, 52, 52]) [48] 48 }

/-- The process state after `tfs_deinit` on `notesState`. -/
def notesTornDown : tfs_state :=
  { tfs_rootentry := [notesEntry], tfs_currfile := none, errno := 0 }

/-- A stream in which one all-zero block precedes the archive `notesArchive`:
the zero block at 0, the header of `notes.txt` at 512, its data block at 1024
and the two terminating zero blocks at 1536 (2560 bytes). -/
def paddedArchive : List Nat := zeroBlock ++ notesArchive

/-- The backing stream of `paddedArchive` before the scan. -/
def paddedFile : FILE := { ident := 1, data := paddedArchive, pos := 0 }

/-- Header of an empty regular file with the one-byte name `c`. -/
def emptyFileHeader (c : Nat) : List Nat :=
  exampleHeader [c] [48, 48, 48, 48, 48, 48, 48, 48, 48, 48, 48] 48

/-- The stream [zero block][header `a`, size 0][zero block][header `b`, size 0]
[zero block][zero block] (3072 bytes). -/
def gappedArchive : List Nat :=
  zeroBlock ++ (emptyFileHeader 97 ++ (zeroBlock ++ (emptyFileHeader 98 ++
    (zeroBlock ++ zeroBlock))))

/-- The backing stream of `gappedArchive` before the scan. -/
def gappedFile : FILE := { ident := 1, data := gappedArchive, pos := 0 }

/-- The cursor invariant of a handle `h` that was `s` before an operation: it
is still a virtual handle, its cursor lies within its data region, and the
region is the one of `s`. -/
def cursorKept (s : TFS_FILE) : Stream → Prop
  | .tfs s2 => s2.now_pos ≤ s2.data_len ∧ s2.data_begin = s.data_begin ∧
      s2.data_len = s.data_len
  | .std _ => False

instance cursorKept_decidable (s : TFS_FILE) (h : Stream) : Decidable (cursorKept s h) := by
  cases h <;> unfold cursorKept <;> infer_instance

/-- What the caller of a read observes: the return value, the bytes stored in
the buffer, the handle afterwards (with its cursor) and `errno`. -/
def observed (r : Option tfs_fread_result) : Option (Nat × List Nat × Stream × Nat) :=
  r.map (fun x => (x.ret, x.out, x.stream, x.errno))

/-! ## Lemmas -/

theorem chunks_zero (size : Nat) : chunks size 0 = 0 := by
  unfold chunks
  rcases Nat.eq_zero_or_pos size with h | h
  · subst h; simp
  · exact Nat.div_eq_of_lt (by omega)

theorem chunks_step_full {size n : Nat} (hs : 0 < size) (h : size ≤ n) :
    chunks size n = chunks size (n - size) + 1 := by
  unfold chunks
  have : n + size - 1 = (n - size + size - 1) + size := by omega
  rw [this, Nat.add_div_right _ hs]

theorem chunks_step_last {size n : Nat} (hn : 0 < n) (h : n ≤ size) :
    chunks size n = 1 := by
  unfold chunks
  apply Nat.div_eq_of_lt_le <;> omega

theorem fread_bytes_of_le (fp : FILE) (n : Nat) (h : fp.pos + n ≤ fp.data.length) :
    fread fp 1 n = (n, (fp.data.drop fp.pos).take n, { fp with pos := fp.pos + n }) := by
  have hl : ((fp.data.drop fp.pos).take n).length = n := by
    simp [List.length_take, List.length_drop]; omega
  simp only [fread, Nat.one_mul, hl, Nat.div_one]

theorem take_drop_split (l : List Nat) (p k m : Nat) :
    (l.drop p).take k ++ (l.drop (p + k)).take m = (l.drop p).take (k + m) := by
  rw [List.take_add, List.drop_drop]

theorem toInt_toInt_add (a b : Int) : toInt (toInt a + b) = toInt (a + b) := by
  unfold toInt; omega

theorem toInt_idem (a : Int) : toInt (toInt a) = toInt a := by
  unfold toInt; omega

theorem tfs_fread_loop_full (size : Nat) (hs : 0 < size) :
    ∀ (fuel : Nat) (base : FILE) (stream : TFS_FILE) (count : Int) (out : List Nat),
      toInt count = count →
      stream.now_pos ≤ stream.data_len →
      base.pos = stream.data_begin + stream.now_pos →
      stream.data_begin + stream.data_len ≤ base.data.length →
      stream.data_len - stream.now_pos < fuel →
      tfs_fread_loop size fuel base stream count out =
        some (toInt (count + (chunks size (stream.data_len - stream.now_pos) : Nat)),
              out ++ (base.data.drop (stream.data_begin + stream.now_pos)).take
                (stream.data_len - stream.now_pos),
              { stream with now_pos := stream.data_len },
              { base with pos := stream.data_begin + stream.data_len }) := by
  intro fuel
  induction fuel with
  | zero => intro base stream count out _ _ _ _ h; omega
  | succ fuel ih =>
    intro base stream count out hcount hc hp hd hf
    unfold tfs_fread_loop
    by_cases hlt : stream.now_pos < stream.data_len
    · simp only [hlt, if_true]
      set k := if size ≤ stream.data_len - stream.now_pos then size
        else stream.data_len - stream.now_pos with hk
      have hk1 : 0 < k := by rw [hk]; split <;> omega
      have hk2 : k ≤ stream.data_len - stream.now_pos := by rw [hk]; split <;> omega
      rw [fread_bytes_of_le base k (by omega)]
      simp only [Nat.pos_iff_ne_zero.mp hk1, if_false]
      rw [ih _ _ _ _ (toInt_idem _) (by simp; omega) (by simp; omega) (by simpa using hd)
        (by simp; omega)]
      simp only [List.append_assoc]
      have hrem : stream.data_len - (stream.now_pos + k) = stream.data_len - stream.now_pos - k := by
        omega
      have hnat : chunks size (stream.data_len - (stream.now_pos + k)) + 1 =
          chunks size (stream.data_len - stream.now_pos) := by
        by_cases hfull : size ≤ stream.data_len - stream.now_pos
        · have : k = size := by rw [hk]; simp [hfull]
          rw [chunks_step_full hs hfull, hrem, this]
        · have : k = stream.data_len - stream.now_pos := by rw [hk]; simp [hfull]
          have h1 : chunks size (stream.data_len - stream.now_pos) = 1 :=
            chunks_step_last (by omega) (by omega)
          rw [h1, hrem, this, Nat.sub_self, chunks_zero]
      have hcnt : toInt (toInt (count + 1) +
            (chunks size (stream.data_len - (stream.now_pos + k)) : Nat)) =
          toInt (count + (chunks size (stream.data_len - stream.now_pos) : Nat)) := by
        rw [toInt_toInt_add, ← hnat]
        congr 1
        push_cast
        omega
      have hbytes : (base.data.drop base.pos).take k ++
          (base.data.drop (stream.data_begin + (stream.now_pos + k))).take
            (stream.data_len - (stream.now_pos + k)) =
          (base.data.drop (stream.data_begin + stream.now_pos)).take
            (stream.data_len - stream.now_pos) := by
        rw [hp, ← Nat.add_assoc, take_drop_split]
        congr 1; omega
      simp [hcnt, hbytes]
    · have he : stream.now_pos = stream.data_len := by omega
      simp only [hlt, if_false]
      have : base = { base with pos := stream.data_begin + stream.data_len } := by
        cases base; simp at hp ⊢; rw [hp, he]
      rw [← this]
      simp [he, chunks_zero, hcount]
      cases stream; simp at he ⊢; exact he


theorem cstr_nil : cstr [] = [] := rfl

theorem cstr_cons_zero (t : List Nat) : cstr (0 :: t) = [] := by
  simp [cstr, List.takeWhile]

theorem cstr_cons_ne {x : Nat} (t : List Nat) (h : x ≠ 0) : cstr (x :: t) = x :: cstr t := by
  simp [cstr, List.takeWhile_cons, h]

theorem cstr_of_head_zero (s : List Nat) (h : s.headD 0 = 0) : cstr s = [] := by
  cases s with
  | nil => rfl
  | cons x t => simp at h; subst h; exact cstr_cons_zero t

theorem cstr_of_head_ne (s : List Nat) (h : s.headD 0 ≠ 0) :
    cstr s = s.headD 0 :: cstr s.tail := by
  cases s with
  | nil => simp at h
  | cons x t => simp at h ⊢; exact cstr_cons_ne t h

theorem strncmp_eq_zero_iff : ∀ (n : Nat) (a b : List Nat),
    strncmp a b n = 0 ↔ (cstr a).take n = (cstr b).take n := by
  intro n
  induction n with
  | zero => intro a b; simp [strncmp]
  | succ n ih =>
    intro a b
    rw [strncmp]
    by_cases hne : a.headD 0 = b.headD 0
    · rw [if_neg (not_not.mpr hne)]
      by_cases hz : a.headD 0 = 0
      · have hz2 : b.headD 0 = 0 := by rw [← hne]; exact hz
        rw [if_pos hz, cstr_of_head_zero a hz, cstr_of_head_zero b hz2]
        exact iff_of_true rfl rfl
      · have hz2 : b.headD 0 ≠ 0 := by rw [← hne]; exact hz
        rw [if_neg hz, cstr_of_head_ne a hz, cstr_of_head_ne b hz2, hne]
        simp only [List.take_succ_cons, List.cons.injEq, true_and]
        exact ih _ _
    · rw [if_pos hne]
      constructor
      · intro h; exfalso; apply hne; omega
      · intro h
        exfalso
        by_cases hz : a.headD 0 = 0
        · have hz2 : b.headD 0 ≠ 0 := by intro h2; apply hne; rw [hz, h2]
          rw [cstr_of_head_zero a hz, cstr_of_head_ne b hz2] at h
          exact absurd h (by simp only [List.take_nil, List.take_succ_cons]; exact List.noConfusion)
        · by_cases hz2 : b.headD 0 = 0
          · rw [cstr_of_head_ne a hz, cstr_of_head_zero b hz2] at h
            exact absurd h (by simp only [List.take_nil, List.take_succ_cons]; exact List.noConfusion)
          · rw [cstr_of_head_ne a hz, cstr_of_head_ne b hz2] at h
            simp only [List.take_succ_cons, List.cons.injEq] at h
            exact hne h.1

theorem strncmp_max_eq_zero_iff (a b : List Nat) :
    strncmp a b (MAX (strlen a) (strlen b) + 1) = 0 ↔ cstr a = cstr b := by
  rw [strncmp_eq_zero_iff]
  have h1 : (cstr a).length ≤ MAX (strlen a) (strlen b) + 1 := by
    unfold MAX strlen; split <;> omega
  have h2 : (cstr b).length ≤ MAX (strlen a) (strlen b) + 1 := by
    unfold MAX strlen; split <;> omega
  rw [List.take_of_length_le h1, List.take_of_length_le h2]

theorem ctar_exists_eq_firstNamed (archive : List ctar_t) (n : List Nat) :
    ctar_exists archive n false = firstNamed archive n := by
  induction archive with
  | nil => rfl
  | cons e rest ih =>
    unfold ctar_exists firstNamed
    simp only [Bool.false_eq_true, if_false, strncmp_max_eq_zero_iff, List.find?_cons]
    by_cases h : cstr e.name = cstr n
    · simp [h]
    · simp only [h, if_false, decide_False]
      exact ih

theorem tfs_fopen_virtual (os : OS) (st : tfs_state) (n mode : List Nat) :
    tfs_fopen os st (64 :: 47 :: n) mode =
      if st.tfs_rootentry.isEmpty then (none, { st with errno := ENOMEM })
      else match firstNamed st.tfs_rootentry n with
        | none => (none, { st with errno := ENOENT })
        | some e =>
          if isFileLike e then (some (Stream.tfs (handleFor st e)), st) else (none, st) := by
  unfold tfs_fopen
  simp only [List.headD_cons, TFS_PATH_PREFIX, List.getD_cons_succ, List.getD_cons_zero,
    List.drop_succ_cons, List.drop_zero, ctar_exists_eq_firstNamed]
  simp only [show (64 : Nat) ≠ 0 by decide, if_false, if_true, ne_eq, not_true_eq_false]
  rfl

theorem tfs_fopen_found (os : OS) (st : tfs_state) (n mode : List Nat) (e : ctar_t)
    (he : firstNamed st.tfs_rootentry n = some e) (hfile : isFileLike e) :
    tfs_fopen os st (64 :: 47 :: n) mode = (some (Stream.tfs (handleFor st e)), st) := by
  have hne : st.tfs_rootentry.isEmpty = false := by
    cases hl : st.tfs_rootentry with
    | nil => rw [hl] at he; simp [firstNamed] at he
    | cons a l => rfl
  rw [tfs_fopen_virtual, hne, he]
  simp only [Bool.false_eq_true, if_false, hfile, if_true]

theorem toLong_of_lt {x : Int} (h0 : 0 ≤ x) (h : x < 9223372036854775808) : toLong x = x := by
  unfold toLong; omega

theorem toLong_natCast_of_lt {n : Nat} (h : n < 9223372036854775808) :
    toLong (n : Int) = (n : Int) :=
  toLong_of_lt (by omega) (by omega)

theorem fseek_set_nat (fp : FILE) (n : Nat) :
    fseek fp (n : Int) SEEK_SET = (0, { fp with pos := n }) := by
  simp [fseek, SEEK_SET]

theorem fseek_cur_nat (fp : FILE) (n : Nat) :
    fseek fp (n : Int) SEEK_CUR = (0, { fp with pos := fp.pos + n }) := by
  have h : ¬ ((fp.pos : Int) + (n : Int) < 0) := by omega
  have h2 : ((fp.pos : Int) + (n : Int)).toNat = fp.pos + n := by omega
  simp [fseek, SEEK_SET, SEEK_CUR, h, h2]

/-- A read through a virtual handle whose data region lies inside the backing
file: every remaining byte is transferred, whatever `nmemb` is. -/
theorem tfs_fread_virtual_full (size nmemb : Nat) (stream : TFS_FILE) (base : FILE)
    (errno : Nat) (hs : 0 < size) (hc : stream.now_pos ≤ stream.data_len)
    (hd : stream.data_begin + stream.data_len ≤ base.data.length)
    (hr : stream.data_begin + stream.data_len < 9223372036854775808) :
    tfs_fread true size nmemb (Stream.tfs stream) base errno =
      some ⟨toULong (toInt (chunks size (stream.data_len - stream.now_pos) : Nat)),
        (base.data.drop (stream.data_begin + stream.now_pos)).take
          (stream.data_len - stream.now_pos),
        Stream.tfs { stream with now_pos := stream.data_len },
        { base with pos := stream.data_begin + stream.data_len },
        errno⟩ := by
  unfold tfs_fread
  have hlong : toLong ((stream.data_begin + stream.now_pos : Nat) : Int) =
      ((stream.data_begin + stream.now_pos : Nat) : Int) :=
    toLong_natCast_of_lt (by omega)
  simp only [Bool.not_true, Bool.false_eq_true, if_false]
  rw [← Nat.cast_add, hlong, fseek_set_nat]
  simp only [ne_eq, not_true_eq_false, if_false]
  rw [tfs_fread_loop_full size hs _ _ stream 0 [] rfl hc rfl (by simpa using hd) (by omega)]
  simp

theorem toUInt_lt (x : Int) : toUInt x < 4294967296 := by
  unfold toUInt; omega

theorem ctar_oct2uint_loop_lt : ∀ (size : Nat) (oct : List Nat) (out : Nat),
    out < 4294967296 → ctar_oct2uint_loop size oct out < 4294967296 := by
  intro size
  induction size with
  | zero => intro oct out h; simpa [ctar_oct2uint_loop] using h
  | succ size ih =>
    intro oct out h
    rw [ctar_oct2uint_loop]
    split
    · exact h
    · apply ih
      have h1 : (out <<< 3) % 4294967296 < 2 ^ 32 := Nat.mod_lt _ (by decide)
      have h2 : toUInt (charVal (oct.headD 0) - 48) < 2 ^ 32 := toUInt_lt _
      exact Nat.or_lt_two_pow h1 h2

theorem ctar_oct2uint_lt (oct : List Nat) (size : Nat) : ctar_oct2uint oct size < 4294967296 :=
  ctar_oct2uint_loop_lt size oct 0 (by decide)

theorem ctar_getsize_lt (e : ctar_t) : ctar_getsize e < 4294967296 :=
  ctar_oct2uint_lt _ _

theorem exampleHeader_length (name size : List Nat) (type : Nat)
    (hn : name.length ≤ 124) (hs : size.length ≤ 32) :
    (exampleHeader name size type).length = 512 := by
  simp only [exampleHeader, List.length_append, List.length_replicate, List.length_cons,
    List.length_nil]
  omega

set_option maxRecDepth 10000 in
theorem notes_loaded :
    tfs_inittarfile (oneFile notesArchive) { tfs_rootentry := [], tfs_currfile := none, errno := 0 }
      [116] = some notesState := by
  decide!

theorem notes_opened (os : OS) :
    (tfs_fopen os notesState (64 :: 47 :: notesName) [114]).1 = some (Stream.tfs notesHandle) := by
  rw [tfs_fopen_virtual]
  have h1 : firstNamed notesState.tfs_rootentry notesName = some notesEntry := by decide!
  have h2 : isFileLike notesEntry := by decide!
  have h3 : handleFor notesState notesEntry = notesHandle := by decide!
  rw [h1]
  simp only [h2, if_true, h3]
  rfl

theorem tfs_fopen_other (os : OS) (st : tfs_state) (pathname mode : List Nat)
    (h : pathname.headD 0 ≠ TFS_PATH_PREFIX) :
    tfs_fopen os st pathname mode =
      ((os.fopen (cstr pathname) (cstr mode)).map Stream.std, st) := by
  unfold tfs_fopen
  by_cases hz : pathname.headD 0 = 0
  · rw [if_pos hz, cstr_of_head_zero pathname hz, os.fopen_empty]
    rfl
  · rw [if_neg hz, if_neg h]

theorem ctar_read_size_of_le (fp : FILE) (n : Nat) (h : fp.pos + n ≤ fp.data.length) :
    ctar_read_size fp n = ((fp.data.drop fp.pos).take n, { fp with pos := fp.pos + n }) := by
  unfold ctar_read_size
  rcases Nat.eq_zero_or_pos n with h0 | hpos
  · subst h0
    simp [ctar_read_size_loop]
  · rw [ctar_read_size_loop]
    simp only [List.length_nil, hpos, if_true, Nat.sub_zero]
    rw [fread_bytes_of_le fp n h]
    simp only [gt_iff_lt, hpos, if_true, List.nil_append]
    obtain ⟨k, rfl⟩ : ∃ k, n = k + 1 := ⟨n - 1, by omega⟩
    rw [ctar_read_size_loop]
    have hl : ((fp.data.drop fp.pos).take (k + 1)).length = k + 1 := by
      simp only [List.length_take, List.length_drop]; omega
    simp only [hl, Nat.lt_irrefl, if_false]

theorem read_block_at (fp : FILE) (pre blk rest : List Nat)
    (hd : fp.data = pre ++ (blk ++ rest)) (hp : fp.pos = pre.length) (h : blk.length = 512) :
    ctar_read_size fp 512 = (blk, { fp with pos := fp.pos + 512 }) := by
  rw [ctar_read_size_of_le fp 512 (by rw [hd, hp]; simp only [List.length_append]; omega)]
  rw [hd, hp, List.drop_left, List.take_left' h]

theorem ctar_iszeroed_zeroBlock : ctar_iszeroed zeroBlock 512 = true := by
  decide!

theorem zeroBlock_length : zeroBlock.length = 512 := by
  simp only [zeroBlock, List.length_replicate]

theorem ctar_read_head_header (fp : FILE) (pre blk rest : List Nat) (offset : Nat) (count : Int)
    (archive : List ctar_t)
    (hd : fp.data = pre ++ (blk ++ rest)) (hp : fp.pos = pre.length) (hlen : blk.length = 512)
    (hnz : ctar_iszeroed blk 512 = false) :
    ctar_read_head fp offset count true archive =
      Sum.inr (blk, { fp with pos := fp.pos + 512 }, true) := by
  unfold ctar_read_head
  simp only [if_true, read_block_at fp pre blk rest hd hp hlen, hlen, bne_self_eq_false,
    Bool.and_false, Bool.false_eq_true, if_false, hnz]

theorem jumpOf_eq_padded (block : List Nat)
    (h : 512 * ((ctar_oct2uint (block.drop 124) 11 + 511) / 512) < 4294967296) :
    jumpOf block = 512 * ((ctar_oct2uint (block.drop 124) 11 + 511) / 512) := by
  unfold jumpOf
  split <;> omega

theorem memberBytes_length_cons (m : Member) (ms : List Member) :
    (memberBytes (m :: ms)).length = m.hdr.length + (m.data.length + (memberBytes ms).length) := by
  simp only [memberBytes, List.length_append]

theorem data_le_memberBytes : ∀ (ms : List Member) (m : Member), m ∈ ms →
    m.data.length ≤ (memberBytes ms).length := by
  intro ms
  induction ms with
  | nil => intro m h; cases h
  | cons a l ih =>
    intro m h
    rw [memberBytes_length_cons]
    rcases List.mem_cons.mp h with rfl | h
    · omega
    · have := ih m h; omega

theorem toULong_natCast_of_lt {n : Nat} (h : n < 18446744073709551616) :
    toULong (n : Int) = n := by
  unfold toULong; omega

theorem members_le_memberBytes : ∀ (ms : List Member),
    (∀ m ∈ ms, m.hdr.length = 512) → ms.length ≤ (memberBytes ms).length := by
  intro ms
  induction ms with
  | nil => intro _; exact Nat.zero_le _
  | cons a l ih =>
    intro hwf
    have h1 := hwf a (List.mem_cons_self _ _)
    have h2 := ih (fun x hx => hwf x (List.mem_cons_of_mem _ hx))
    rw [memberBytes_length_cons, List.length_cons]; omega

/-- For well-formed members in a stream shorter than 2^32 the `jump` of the
code is the padded size of the specification. -/
theorem wellFormed_jump (ms : List Member) (hwf : ∀ m ∈ ms, m.wellFormed)
    (htot : (memberBytes ms).length < 4294967296) :
    ∀ m ∈ ms, m.hdr.length = 512 ∧ m.data.length = jumpOf m.hdr ∧
      jumpOf m.hdr = 512 * ((m.size + 511) / 512) := by
  intro m hm
  obtain ⟨h1, _, h3⟩ := hwf m hm
  have hle := data_le_memberBytes ms m hm
  have hj : jumpOf m.hdr = 512 * ((m.size + 511) / 512) :=
    jumpOf_eq_padded m.hdr (by unfold Member.size at h3; omega)
  exact ⟨h1, by rw [hj]; exact h3, hj⟩

theorem fread_one (fp : FILE) (n : Nat) :
    fread fp 1 n = (((fp.data.drop fp.pos).take n).length, (fp.data.drop fp.pos).take n,
      { fp with pos := fp.pos + ((fp.data.drop fp.pos).take n).length }) := by
  simp only [fread, Nat.one_mul, Nat.div_one]

/-- On a stdio stream `ctar_read_size` delivers what one `fread` of `size`
bytes delivers. -/
theorem ctar_read_size_eq (fp : FILE) (n : Nat) :
    ctar_read_size fp n = ((fp.data.drop fp.pos).take n,
      { fp with pos := fp.pos + ((fp.data.drop fp.pos).take n).length }) := by
  unfold ctar_read_size
  rcases Nat.eq_zero_or_pos n with h0 | hpos
  · subst h0
    simp [ctar_read_size_loop]
  · rw [ctar_read_size_loop]
    simp only [List.length_nil, hpos, if_true, Nat.sub_zero, fread_one, List.nil_append]
    by_cases hk : ((fp.data.drop fp.pos).take n).length > 0
    · simp only [hk, if_true]
      obtain ⟨k, rfl⟩ : ∃ k, n = k + 1 := ⟨n - 1, by omega⟩
      rw [ctar_read_size_loop]
      by_cases hshort : ((fp.data.drop fp.pos).take (k + 1)).length < k + 1
      · simp only [hshort, if_true, fread_one]
        have hlen : ((fp.data.drop fp.pos).take (k + 1)).length = fp.data.length - fp.pos := by
          simp only [List.length_take, List.length_drop] at hshort ⊢; omega
        have hnil : (fp.data.drop (fp.pos + ((fp.data.drop fp.pos).take (k + 1)).length)).take
            (k + 1 - ((fp.data.drop fp.pos).take (k + 1)).length) = [] := by
          rw [hlen, List.drop_eq_nil_of_le (by omega)]
          exact List.take_nil
        simp only [hnil, List.length_nil, gt_iff_lt, Nat.lt_irrefl, if_false, Nat.add_zero]
      · simp only [hshort, if_false]
    · have hnil : (fp.data.drop fp.pos).take n = [] := by
        apply List.eq_nil_of_length_eq_zero; omega
      simp only [hnil, List.length_nil, gt_iff_lt, Nat.lt_irrefl, if_false, Nat.add_zero]

/-- What one round of `ctar_read` can do with the stream: leave the loop with
the count so far, or hand on a 512-byte block after at least one full block
read inside the file. -/
theorem ctar_read_head_cases (fp : FILE) (offset : Nat) (count : Int) (update : Bool)
    (archive : List ctar_t) :
    (∃ fp2, ctar_read_head fp offset count update archive = Sum.inl (count, archive, fp2) ∧
        fp2.data = fp.data ∧ fp2.ident = fp.ident ∧ fp.pos ≤ fp2.pos) ∨
    (∃ block fp1 update1,
        ctar_read_head fp offset count update archive = Sum.inr (block, fp1, update1) ∧
        fp1.data = fp.data ∧ fp1.ident = fp.ident ∧ fp.pos + 512 ≤ fp1.pos ∧
        fp1.pos ≤ fp.data.length ∧ block.length = 512) := by
  have hlen : ∀ (q : FILE), ((q.data.drop q.pos).take 512).length = 512 →
      q.pos + 512 ≤ q.data.length := by
    intro q h
    simp only [List.length_take, List.length_drop] at h; omega
  have hrep : (List.replicate 512 0 : List Nat).length = 512 := List.length_replicate _ _
  unfold ctar_read_head
  simp only [ctar_read_size_eq, fseek_cur_nat]
  cases update with
  | true =>
    simp only [if_true, Bool.true_and]
    by_cases h1 : ((fp.data.drop fp.pos).take 512).length = 512
    · simp only [h1, bne_self_eq_false, Bool.false_eq_true, if_false]
      by_cases hz : ctar_iszeroed ((fp.data.drop fp.pos).take 512) 512 = true
      · simp only [hz, if_true]
        by_cases h2 : ((fp.data.drop (fp.pos + 512)).take 512).length = 512
        · simp only [h2, bne_self_eq_false, Bool.false_eq_true, if_false]
          by_cases hz2 : ctar_iszeroed ((fp.data.drop (fp.pos + 512)).take 512) 512 = true
          · simp only [hz2, if_true, show ((0 : Int) = -1) = False by decide, if_false]
            exact Or.inl ⟨_, rfl, rfl, rfl, by simp only; omega⟩
          · simp only [hz2, Bool.false_eq_true, if_false]
            have := hlen { fp with pos := fp.pos + 512 } h2
            exact Or.inr ⟨_, _, _, rfl, rfl, rfl, by simp only; omega,
              by simp only at this ⊢; omega, h2⟩
        · have hb : (((fp.data.drop (fp.pos + 512)).take 512).length != 512) = true := by
            simpa using h2
          simp only [hb, if_true]
          exact Or.inl ⟨_, rfl, rfl, rfl, by simp only; omega⟩
      · simp only [hz, Bool.false_eq_true, if_false]
        have := hlen fp h1
        exact Or.inr ⟨_, _, _, rfl, rfl, rfl, by simp only; omega, by simp only; omega, h1⟩
    · have hb : (((fp.data.drop fp.pos).take 512).length != 512) = true := by simpa using h1
      simp only [hb, if_true]
      exact Or.inl ⟨_, rfl, rfl, rfl, by simp only; omega⟩
  | false =>
    have hz : ctar_iszeroed (List.replicate 512 0) 512 = true := ctar_iszeroed_zeroBlock
    simp only [Bool.false_eq_true, if_false, Bool.false_and, hz, if_true]
    by_cases h2 : ((fp.data.drop fp.pos).take 512).length = 512
    · simp only [h2, bne_self_eq_false, Bool.false_eq_true, if_false]
      by_cases hz2 : ctar_iszeroed ((fp.data.drop fp.pos).take 512) 512 = true
      · simp only [hz2, if_true, show ((0 : Int) = -1) = False by decide, if_false]
        exact Or.inl ⟨_, rfl, rfl, rfl, by simp only; omega⟩
      · simp only [hz2, Bool.false_eq_true, if_false]
        have := hlen fp h2
        exact Or.inr ⟨_, _, _, rfl, rfl, rfl, by simp only; omega, by simp only; omega, h2⟩
    · have hb : (((fp.data.drop fp.pos).take 512).length != 512) = true := by simpa using h2
      simp only [hb, if_true]
      exact Or.inl ⟨_, rfl, rfl, rfl, by simp only; omega⟩

/-- The loop of `ctar_read` ends on every stream once the fuel exceeds the
number of whole blocks left, with the number of linked nodes as its result. -/
theorem ctar_read_loop_total : ∀ (fuel : Nat) (fp : FILE) (offset : Nat) (count : Int)
    (update : Bool) (archive : List ctar_t),
    (fp.data.length - fp.pos) / 512 < fuel →
    ∃ es fp2, ctar_read_loop fuel fp offset count update archive =
        some (count + (es.length : Int), archive ++ es, fp2) ∧
      fp2.data = fp.data ∧ fp2.ident = fp.ident ∧ fp.pos ≤ fp2.pos := by
  intro fuel
  induction fuel with
  | zero => intro fp offset count update archive h; omega
  | succ fuel ih =>
    intro fp offset count update archive hf
    rw [ctar_read_loop]
    rcases ctar_read_head_cases fp offset count update archive with
      ⟨fp2, h, hd, hi, hp⟩ | ⟨block, fp1, update1, h, hd, hi, hp1, hp2, _⟩
    · rw [h]
      exact ⟨[], fp2, by simp, hd, hi, hp⟩
    · rw [h]
      simp only [ctar_read_entry, fseek_cur_nat, show ((0 : Int) = -1) = False by decide,
        if_false]
      obtain ⟨es, fp3, h3, hd3, hi3, hp3⟩ := ih
        { fp1 with pos := fp1.pos + (if ctar_oct2uint (block.drop 124) 11 % 512 ≠ 0 then
            (ctar_oct2uint (block.drop 124) 11 + (512 - ctar_oct2uint (block.drop 124) 11 % 512))
              % 4294967296
          else ctar_oct2uint (block.drop 124) 11) }
        ((offset + (512 + (if ctar_oct2uint (block.drop 124) 11 % 512 ≠ 0 then
            (ctar_oct2uint (block.drop 124) 11 + (512 - ctar_oct2uint (block.drop 124) 11 % 512))
              % 4294967296
          else ctar_oct2uint (block.drop 124) 11))) % 4294967296)
        (count + 1) update1
        (archive ++ [{ original_name := List.replicate 100 0, begin := offset, block := block }])
        (by simp only [hd]; omega)
      rw [h3]
      refine ⟨{ original_name := List.replicate 100 0, begin := offset, block := block } :: es,
        fp3, ?_, by rw [hd3]; exact hd, by rw [hi3]; exact hi, by simp only at hp3; omega⟩
      simp only [List.length_cons, List.append_assoc, List.singleton_append, Nat.cast_add,
        Nat.cast_one]
      congr 2
      omega

/-- The scan ends on every stream and returns the number of nodes it linked. -/
theorem ctar_read_total (fp : FILE) :
    ∃ entries fp2, ctar_read fp [] = some ((entries.length : Int), entries, fp2) ∧
      fp2.data = fp.data ∧ fp2.ident = fp.ident := by
  obtain ⟨es, fp2, h, hd, hi, _⟩ := ctar_read_loop_total (fp.data.length + 1) fp 0 0 true []
    (by
      have : (fp.data.length - fp.pos) / 512 ≤ fp.data.length - fp.pos := Nat.div_le_self _ _
      omega)
  refine ⟨es, fp2, ?_, hd, hi⟩
  unfold ctar_read
  simp only [List.isEmpty_nil, if_true, h, Int.zero_add, List.nil_append]

theorem fseek_data (fp : FILE) (offset : Int) (whence : Nat) :
    (fseek fp offset whence).2.data = fp.data ∧ (fseek fp offset whence).2.ident = fp.ident := by
  have aux : ∀ target : Option Int,
      ((match target with
        | some t => if t < 0 then ((-1 : Int), fp) else (0, { fp with pos := t.toNat })
        | none => (-1, fp)) : Int × FILE).2.data = fp.data ∧
      ((match target with
        | some t => if t < 0 then ((-1 : Int), fp) else (0, { fp with pos := t.toNat })
        | none => (-1, fp)) : Int × FILE).2.ident = fp.ident := by
    intro target
    cases target with
    | none => exact ⟨rfl, rfl⟩
    | some t => dsimp only; split <;> exact ⟨rfl, rfl⟩
  exact aux _

theorem fread_data (fp : FILE) (size nmemb : Nat) :
    (fread fp size nmemb).2.2.data = fp.data ∧ (fread fp size nmemb).2.2.ident = fp.ident := by
  unfold fread
  exact ⟨rfl, rfl⟩

theorem ctar_istarfile_shape (fp : FILE) :
    ctar_istarfile fp =
      if (fseek fp (-1024) SEEK_END).1 ≠ 0 then (false, (fseek fp (-1024) SEEK_END).2)
      else if (fread (fseek fp (-1024) SEEK_END).2 1024 1).1 ≠ 1 then
        (false, (fseek (fread (fseek fp (-1024) SEEK_END).2 1024 1).2.2
          (toLong (toULong (ftell fp))) SEEK_SET).2)
      else (ctar_iszeroed (fread (fseek fp (-1024) SEEK_END).2 1024 1).2.1 1024,
        (fseek (fread (fseek fp (-1024) SEEK_END).2 1024 1).2.2
          (toLong (toULong (ftell fp))) SEEK_SET).2) := by
  unfold ctar_istarfile
  rfl

theorem probe_shape_snd (P : FILE → Prop) (s : Int × FILE) (r : Nat × List Nat × FILE)
    (back : Int × FILE) (z : Bool) (h1 : P s.2) (hb : P back.2) :
    P (if s.1 ≠ 0 then (false, s.2)
      else if r.1 ≠ 1 then (false, back.2) else (z, back.2)).2 := by
  split
  · exact h1
  · split <;> exact hb

theorem fseek_end_short (fp : FILE) (h : fp.data.length < 1024) :
    fseek fp (-1024) SEEK_END = (-1, fp) := by
  have h1 : (fp.data.length : Int) + (-1024) < 0 := by omega
  simp only [fseek, SEEK_SET, SEEK_CUR, SEEK_END, show (2 : Nat) ≠ 0 by decide,
    show (2 : Nat) ≠ 1 by decide, if_false, if_true, h1]

theorem fseek_end_long (fp : FILE) (h : 1024 ≤ fp.data.length) :
    fseek fp (-1024) SEEK_END = (0, { fp with pos := fp.data.length - 1024 }) := by
  have h1 : ¬ ((fp.data.length : Int) + (-1024) < 0) := by omega
  have h2 : ((fp.data.length : Int) + (-1024)).toNat = fp.data.length - 1024 := by omega
  simp only [fseek, SEEK_SET, SEEK_CUR, SEEK_END, show (2 : Nat) ≠ 0 by decide,
    show (2 : Nat) ≠ 1 by decide, if_false, if_true, h1, h2]

set_option maxRecDepth 10000 in
/-- The probe, case by case: a stream shorter than 1024 bytes is refused; on a
longer one the verdict is the zero test of its last 1024 bytes. -/
theorem ctar_istarfile_eq (fp : FILE) :
    ctar_istarfile fp =
      if fp.data.length < 1024 then (false, fp)
      else (ctar_iszeroed (fp.data.drop (fp.data.length - 1024)) 1024,
        (fseek { fp with pos := fp.data.length } (toLong (toULong (ftell fp))) SEEK_SET).2) := by
  by_cases h : fp.data.length < 1024
  · rw [if_pos h]
    unfold ctar_istarfile
    simp only [fseek_end_short fp h, ne_eq, show ¬ ((-1 : Int) = 0) by decide, not_false_eq_true,
      if_true]
  · rw [if_neg h]
    have hbytes : ((fp.data.drop (fp.data.length - 1024)).take (1024 * 1)).length = 1024 := by
      simp only [List.length_take, List.length_drop]; omega
    have htake : (fp.data.drop (fp.data.length - 1024)).take (1024 * 1) =
        fp.data.drop (fp.data.length - 1024) :=
      List.take_of_length_le (by simp only [List.length_drop]; omega)
    have hread : fread { fp with pos := fp.data.length - 1024 } 1024 1 =
        (1, fp.data.drop (fp.data.length - 1024), { fp with pos := fp.data.length }) := by
      have e1 : (fp.data.length - (fp.data.length - 1024)) / 1024 = 1 := by omega
      have e2 : fp.data.length - 1024 + (fp.data.length - (fp.data.length - 1024)) =
          fp.data.length := by omega
      simp only [fread, htake, List.length_drop, e1, e2]
    unfold ctar_istarfile
    rw [fseek_end_long fp (by omega)]
    simp only [ne_eq, not_true_eq_false, if_false]
    rw [hread]
    exact if_neg (not_not.mpr rfl)

theorem ctar_istarfile_data (fp : FILE) :
    (ctar_istarfile fp).2.data = fp.data ∧ (ctar_istarfile fp).2.ident = fp.ident := by
  have h1 := fseek_data fp (-1024) SEEK_END
  have h2 := fseek_data (fread (fseek fp (-1024) SEEK_END).2 1024 1).2.2
    (toLong (toULong (ftell fp))) SEEK_SET
  have h3 := fread_data (fseek fp (-1024) SEEK_END).2 1024 1
  have hb := And.intro (h2.1.trans (h3.1.trans h1.1)) (h2.2.trans (h3.2.trans h1.2))
  rw [ctar_istarfile_shape]
  exact probe_shape_snd (fun q => q.data = fp.data ∧ q.ident = fp.ident)
    (fseek fp (-1024) SEEK_END) (fread (fseek fp (-1024) SEEK_END).2 1024 1)
    (fseek (fread (fseek fp (-1024) SEEK_END).2 1024 1).2.2
      (toLong (toULong (ftell fp))) SEEK_SET)
    (ctar_iszeroed (fread (fseek fp (-1024) SEEK_END).2 1024 1).2.1 1024) h1 hb

theorem ctar_iszeroed_iff (buf : List Nat) (size : Nat) :
    ctar_iszeroed buf size = true ↔ ∀ b ∈ buf.take size, b = 0 := by
  unfold ctar_iszeroed
  simp only [List.all_eq_true, beq_iff_eq]

theorem fseek_restore (fp : FILE) (q : Nat) (hp : fp.pos < 9223372036854775808) :
    (fseek { fp with pos := q } (toLong (toULong (ftell fp))) SEEK_SET).2 = fp := by
  unfold ftell
  rw [toULong_natCast_of_lt (by omega), toLong_natCast_of_lt hp, fseek_set_nat]

/-- The loop of `ctar_oct2uint` over a NUL-free prefix that ends at the size
limit or at a NUL folds `octStep` over the prefix. -/
theorem ctar_oct2uint_loop_fold : ∀ (pre : List Nat) (size : Nat) (rest : List Nat) (out : Nat),
    (∀ c ∈ pre, c ≠ 0) → pre.length ≤ size → (pre.length = size ∨ rest.headD 0 = 0) →
    ctar_oct2uint_loop size (pre ++ rest) out = pre.foldl octStep out := by
  intro pre
  induction pre with
  | nil =>
    intro size rest out _ _ hend
    cases size with
    | zero => rfl
    | succ size =>
      have hz : rest.headD 0 = 0 := by
        rcases hend with h | h
        · simp at h
        · exact h
      rw [ctar_oct2uint_loop]
      simp only [List.nil_append, hz, if_true, List.foldl_nil]
  | cons c cs ih =>
    intro size rest out hne hlen hend
    cases size with
    | zero => simp at hlen
    | succ size =>
      have hc : c ≠ 0 := hne c (List.mem_cons_self _ _)
      rw [ctar_oct2uint_loop]
      simp only [List.cons_append, List.headD_cons, hc, if_false, List.tail_cons, List.foldl_cons]
      exact ih size rest _ (fun x hx => hne x (List.mem_cons_of_mem _ hx))
        (by simpa using hlen)
        (by
          rcases hend with h | h
          · left; simpa using h
          · right; exact h)

theorem or_low_digit (a d : Nat) (ha : a % 8 = 0) (hd : d < 8) : a ||| d = a + d := by
  have h := Nat.mul_add_lt_is_or (show d < 2 ^ 3 from hd) (a / 8)
  have h8 : 2 ^ 3 * (a / 8) = a := by
    have := Nat.div_add_mod a 8
    omega
  rw [h8] at h
  exact h.symm

theorem octStep_digit (out d : Nat) (hd : d < 8) :
    octStep out (d + 48) = (out * 8 + d) % 4294967296 := by
  unfold octStep
  have h1 : toUInt (charVal (d + 48) - 48) = d := by
    unfold toUInt charVal
    have : d + 48 < 128 := by omega
    simp only [this, if_true]
    omega
  have h2 : out <<< 3 = out * 8 := by rw [Nat.shiftLeft_eq]
  rw [h1, h2, or_low_digit _ _ (by omega) hd]
  omega

theorem foldl_octStep_digits : ∀ (digits : List Nat) (out : Nat), (∀ d ∈ digits, d < 8) →
    (digits.map (fun d => d + 48)).foldl octStep out % 4294967296 =
      (out * 8 ^ digits.length + octalValue digits) % 4294967296 := by
  intro digits
  induction digits with
  | nil => intro out _; simp [octalValue]
  | cons d ds ih =>
    intro out hd
    simp only [List.map_cons, List.foldl_cons, List.length_cons, octalValue]
    rw [octStep_digit out d (hd d (List.mem_cons_self _ _)),
      ih _ (fun x hx => hd x (List.mem_cons_of_mem _ hx))]
    rw [Nat.add_mod, Nat.mul_mod, Nat.mod_mod, ← Nat.mul_mod, ← Nat.add_mod]
    congr 1
    ring

theorem foldl_octStep_lt : ∀ (pre : List Nat) (out : Nat), out < 4294967296 →
    pre.foldl octStep out < 4294967296 := by
  intro pre
  induction pre with
  | nil => intro out h; exact h
  | cons c cs ih =>
    intro out _
    simp only [List.foldl_cons]
    apply ih
    unfold octStep
    have h1 : (out <<< 3) % 4294967296 < 2 ^ 32 := Nat.mod_lt _ (by decide)
    have h2 : toUInt (charVal c - 48) < 2 ^ 32 := toUInt_lt _
    exact Nat.or_lt_two_pow h1 h2

theorem ctar_istarfile_short (fp : FILE) (h : fp.data.length < 1024) :
    ctar_istarfile fp = (false, fp) :=
  (ctar_istarfile_eq fp).trans (if_pos h)

theorem ctar_istarfile_long (fp : FILE) (h : ¬ fp.data.length < 1024)
    (hp : fp.pos < 9223372036854775808) :
    ctar_istarfile fp = (ctar_iszeroed (fp.data.drop (fp.data.length - 1024)) 1024, fp) :=
  (ctar_istarfile_eq fp).trans ((if_neg h).trans
    (congrArg (Prod.mk (ctar_iszeroed (fp.data.drop (fp.data.length - 1024)) 1024))
      (fseek_restore fp fp.data.length hp)))

theorem probe_verdict_iff (z : Bool) (fp : FILE) (P : Prop) (h : z = true ↔ P) :
    ((z, fp).1 = true ↔ P) ∧ (z, fp).2 = fp ∧ (z, fp).2.pos = fp.pos :=
  ⟨h, rfl, rfl⟩

theorem tfs_fread_loop_eq_with (size : Nat) :
    ∀ (fuel : Nat) (base : FILE) (stream : TFS_FILE) (count : Int) (out : List Nat),
      tfs_fread_loop size fuel base stream count out =
        tfs_fread_loop_with (fun b n => fread b 1 n) size fuel base stream count out := by
  intro fuel
  induction fuel with
  | zero => intro base stream count out; rfl
  | succ fuel ih =>
    intro base stream count out
    rw [tfs_fread_loop, tfs_fread_loop_with]
    simp only [ih]

/-- The read loop returns whatever the stdio `fread` delivers, as long as that
call reports no more items than it was asked for; the cursor stays within the
data region and only the cursor changes. -/
theorem tfs_fread_loop_with_cursor (phys : FILE → Nat → Nat × List Nat × FILE) (size : Nat)
    (hphys : ∀ b n, (phys b n).1 ≤ n) :
    ∀ (fuel : Nat) (base : FILE) (stream : TFS_FILE) (count : Int) (out : List Nat),
      stream.now_pos ≤ stream.data_len → stream.data_len - stream.now_pos < fuel →
      ∃ r, tfs_fread_loop_with phys size fuel base stream count out = some r ∧
        r.2.2.1.now_pos ≤ r.2.2.1.data_len ∧ stream.now_pos ≤ r.2.2.1.now_pos ∧
        r.2.2.1 = { stream with now_pos := r.2.2.1.now_pos } := by
  intro fuel
  induction fuel with
  | zero => intro base stream count out _ h; omega
  | succ fuel ih =>
    intro base stream count out hinv hfuel
    rw [tfs_fread_loop_with]
    by_cases hlt : stream.now_pos < stream.data_len
    · rw [if_pos hlt]
      by_cases hz : (phys base (if size ≤ stream.data_len - stream.now_pos then size
          else stream.data_len - stream.now_pos)).1 = 0
      · simp only [hz, if_true]
        exact ⟨_, rfl, hinv, Nat.le_refl _, rfl⟩
      · simp only [hz, if_false]
        have hle := hphys base (if size ≤ stream.data_len - stream.now_pos then size
          else stream.data_len - stream.now_pos)
        have hmin : (if size ≤ stream.data_len - stream.now_pos then size
            else stream.data_len - stream.now_pos) ≤ stream.data_len - stream.now_pos := by
          split <;> omega
        obtain ⟨r, hr, h1, h2, h3⟩ := ih
          (phys base (if size ≤ stream.data_len - stream.now_pos then size
            else stream.data_len - stream.now_pos)).2.2
          { stream with now_pos := stream.now_pos +
              (phys base (if size ≤ stream.data_len - stream.now_pos then size
                else stream.data_len - stream.now_pos)).1 }
          (toInt (count + 1))
          (out ++ (phys base (if size ≤ stream.data_len - stream.now_pos then size
            else stream.data_len - stream.now_pos)).2.1)
          (by show _ + _ ≤ stream.data_len; omega)
          (by show stream.data_len - (_ + _) < fuel; omega)
        refine ⟨r, hr, h1, ?_, ?_⟩
        · have : stream.now_pos + _ ≤ r.2.2.1.now_pos := h2
          omega
        · rw [h3]
    · rw [if_neg hlt]
      exact ⟨_, rfl, hinv, Nat.le_refl _, rfl⟩

theorem cursorKept_of_eq (s s2 : TFS_FILE) (h1 : s2.now_pos ≤ s2.data_len)
    (h2 : s2.data_begin = s.data_begin) (h3 : s2.data_len = s.data_len) :
    cursorKept s (Stream.tfs s2) :=
  ⟨h1, h2, h3⟩

theorem fread_count_le (b : FILE) (n : Nat) : (fread b 1 n).1 ≤ n := by
  unfold fread
  show ((b.data.drop b.pos).take (1 * n)).length / 1 ≤ n
  rw [Nat.div_one, List.length_take]
  omega

/-- A read through a virtual handle returns, and the handle afterwards still
satisfies the cursor invariant with the same data region. -/
theorem tfs_fread_cursor (ptr : Bool) (size nmemb : Nat) (s : TFS_FILE) (base : FILE)
    (errno : Nat) (hinv : s.now_pos ≤ s.data_len) :
    ∃ r, tfs_fread ptr size nmemb (Stream.tfs s) base errno = some r ∧
      cursorKept s r.stream := by
  cases ptr with
  | false => exact ⟨_, rfl, hinv, rfl, rfl⟩
  | true =>
    obtain ⟨r, hr, h1, _, h3⟩ := tfs_fread_loop_with_cursor (fun b n => fread b 1 n) size
      fread_count_le (s.data_len - s.now_pos + 1)
      (fseek base (toLong (s.data_begin + s.now_pos)) SEEK_SET).2 s 0 [] hinv (by omega)
    rw [← tfs_fread_loop_eq_with] at hr
    unfold tfs_fread
    by_cases hs : (fseek base (toLong (s.data_begin + s.now_pos)) SEEK_SET).1 ≠ 0
    · simp only [Bool.not_true, Bool.false_eq_true, if_false]
      rw [if_pos hs]
      refine ⟨_, rfl, ?_⟩
      exact cursorKept_of_eq s s hinv rfl rfl
    · simp only [Bool.not_true, Bool.false_eq_true, if_false]
      rw [if_neg hs, hr]
      refine ⟨_, rfl, ?_⟩
      show cursorKept s (Stream.tfs r.2.2.1)
      rw [h3]
      exact ⟨by rw [h3] at h1; exact h1, rfl, rfl⟩

/-- A seek on a virtual handle, whatever its offset and whence and whether it
succeeds or fails, leaves the cursor within the data region and the region
unchanged. -/
theorem tfs_fseek_cursor (s : TFS_FILE) (offset : Int) (whence errno : Nat)
    (hinv : s.now_pos ≤ s.data_len) (hL : s.data_len < 9223372036854775808) :
    cursorKept s (tfs_fseek (Stream.tfs s) offset whence errno).2.1 := by
  have hlen : toLong (s.data_len : Int) = (s.data_len : Int) := toLong_natCast_of_lt hL
  unfold tfs_fseek
  by_cases h0 : whence = SEEK_SET
  · simp only [h0, if_true, hlen]
    by_cases hc : offset < 0 ∨ offset > (s.data_len : Int)
    · rw [if_pos hc]
      exact ⟨hinv, rfl, rfl⟩
    · rw [if_neg hc]
      refine ⟨?_, rfl, rfl⟩
      show toULong offset ≤ s.data_len
      unfold toULong; omega
  · by_cases h1 : whence = SEEK_CUR
    · simp only [h1, show SEEK_CUR ≠ SEEK_SET by decide, if_false, if_true, hlen]
      generalize toLong ((toULong offset + s.now_pos : Nat) : Int) = x
      by_cases hc : x < 0 ∨ x > (s.data_len : Int)
      · rw [if_pos hc]
        exact ⟨hinv, rfl, rfl⟩
      · rw [if_neg hc]
        refine ⟨?_, rfl, rfl⟩
        show toULong x ≤ s.data_len
        unfold toULong; omega
    · by_cases h2 : whence = SEEK_END
      · simp only [h2, show SEEK_END ≠ SEEK_SET by decide, show SEEK_END ≠ SEEK_CUR by decide,
          if_false, if_true, hlen]
        by_cases hc : toLong (-offset) > (s.data_len : Int)
        · rw [if_pos hc]
          exact ⟨hinv, rfl, rfl⟩
        · rw [if_neg hc]
          have hdiv : toULong ((s.data_len : Int) + 1) = s.data_len + 1 := by
            unfold toULong; omega
          rw [hdiv]
          generalize toULong (toLong ((toULong offset + s.data_len : Nat) : Int)) = z
          have hlt : z % (s.data_len + 1) < s.data_len + 1 := Nat.mod_lt _ (by omega)
          generalize z % (s.data_len + 1) = y at hlt
          rw [toLong_natCast_of_lt (by omega), toULong_natCast_of_lt (by omega)]
          exact ⟨by show y ≤ s.data_len; omega, rfl, rfl⟩
      · simp only [h0, h1, h2, if_false]
        exact ⟨hinv, rfl, rfl⟩

/-- A virtual handle comes out of `tfs_fopen` with its cursor at 0 and a data
length below 2^32. -/
theorem tfs_fopen_fresh (os : OS) (st : tfs_state) (pathname mode : List Nat) (s0 : TFS_FILE)
    (h : (tfs_fopen os st pathname mode).1 = some (Stream.tfs s0)) :
    s0.now_pos = 0 ∧ s0.data_len < 4294967296 := by
  unfold tfs_fopen at h
  split at h
  · exact absurd h (by simp)
  · split at h
    · split at h
      · exact absurd h (by simp)
      · split at h
        · exact absurd h (by simp)
        · split at h
          · exact absurd h (by simp)
          · split at h
            · have h2 := Stream.tfs.inj (Option.some.inj h)
              rw [← h2]
              exact ⟨rfl, ctar_getsize_lt _⟩
            · exact absurd h (by simp)
    · cases hf : os.fopen (cstr pathname) (cstr mode) with
      | none => rw [hf] at h; exact absurd h (by simp)
      | some fp => rw [hf] at h; exact absurd h (by simp)

theorem fseek_set_neg (b : FILE) (t : Int) (h : t < 0) : fseek b t SEEK_SET = (-1, b) := by
  simp only [fseek, SEEK_SET, if_true, h]

theorem fseek_set_nonneg (b : FILE) (t : Int) (h : ¬ t < 0) :
    fseek b t SEEK_SET = (0, { b with pos := t.toNat }) := by
  simp only [fseek, SEEK_SET, if_true, h, if_false]

theorem FILE_with_pos_eq (b1 b2 : FILE) (n : Nat) (hd : b1.data = b2.data)
    (hi : b1.ident = b2.ident) : ({ b1 with pos := n } : FILE) = { b2 with pos := n } := by
  cases b1
  cases b2
  simp only at hd hi
  rw [hd, hi]

/-- The shape of `tfs_fread` with a non-null buffer in terms of the outcome of
its initial `fseek`. -/
theorem tfs_fread_of_seek (size nmemb : Nat) (s : TFS_FILE) (base : FILE) (errno : Nat)
    (sk : Int × FILE)
    (hsk : fseek base (toLong (s.data_begin + s.now_pos)) SEEK_SET = sk) :
    tfs_fread true size nmemb (Stream.tfs s) base errno =
      if sk.1 ≠ 0 then some ⟨0, [], Stream.tfs s, sk.2, errno⟩
      else
        match tfs_fread_loop size (s.data_len - s.now_pos + 1) sk.2 s 0 [] with
        | none => none
        | some r => some ⟨toULong r.1, r.2.1, Stream.tfs r.2.2.1, r.2.2.2, errno⟩ := by
  unfold tfs_fread
  simp only [Bool.not_true, Bool.false_eq_true, if_false]
  rw [hsk]

theorem tfs_fread_loop_base (size : Nat) :
    ∀ (fuel : Nat) (base : FILE) (stream : TFS_FILE) (count : Int) (out : List Nat)
      (r : Int × List Nat × TFS_FILE × FILE),
      tfs_fread_loop size fuel base stream count out = some r →
      r.2.2.2.data = base.data ∧ r.2.2.2.ident = base.ident := by
  intro fuel
  induction fuel with
  | zero =>
    intro base stream count out r h
    exact absurd h (by simp [tfs_fread_loop])
  | succ fuel ih =>
    intro base stream count out r h
    rw [tfs_fread_loop] at h
    have hfd := fread_data base 1 (if size ≤ stream.data_len - stream.now_pos then size
      else stream.data_len - stream.now_pos)
    by_cases hlt : stream.now_pos < stream.data_len
    · rw [if_pos hlt] at h
      by_cases hz : (fread base 1 (if size ≤ stream.data_len - stream.now_pos then size
          else stream.data_len - stream.now_pos)).1 = 0
      · simp only [hz, if_true] at h
        rw [← Option.some.inj h]
        exact hfd
      · simp only [hz, if_false] at h
        have h2 := ih _ _ _ _ r h
        exact ⟨h2.1.trans hfd.1, h2.2.trans hfd.2⟩
    · rw [if_neg hlt] at h
      rw [← Option.some.inj h]
      exact ⟨rfl, rfl⟩

theorem tfs_fread_null (size nmemb : Nat) (s : TFS_FILE) (base : FILE) (errno : Nat) :
    tfs_fread false size nmemb (Stream.tfs s) base errno =
      some ⟨0, [], Stream.tfs s, base, ENOSR⟩ :=
  rfl

theorem read_result_base (size : Nat) (s : TFS_FILE) (base : FILE) (errno : Nat)
    (r : tfs_fread_result) (sk : Int × FILE)
    (hsd : sk.2.data = base.data ∧ sk.2.ident = base.ident)
    (h : (if sk.1 ≠ 0 then some ⟨0, [], Stream.tfs s, sk.2, errno⟩
      else
        match tfs_fread_loop size (s.data_len - s.now_pos + 1) sk.2 s 0 [] with
        | none => none
        | some r => some ⟨toULong r.1, r.2.1, Stream.tfs r.2.2.1, r.2.2.2, errno⟩) = some r) :
    r.base.data = base.data ∧ r.base.ident = base.ident := by
  by_cases hs : sk.1 ≠ 0
  · rw [if_pos hs] at h
    rw [← Option.some.inj h]
    exact hsd
  · rw [if_neg hs] at h
    cases hl : tfs_fread_loop size (s.data_len - s.now_pos + 1) sk.2 s 0 [] with
    | none =>
      rw [hl] at h
      exact Option.noConfusion h
    | some r0 =>
      rw [hl] at h
      rw [← Option.some.inj h]
      have h2 := tfs_fread_loop_base size _ _ _ _ _ r0 hl
      exact ⟨h2.1.trans hsd.1, h2.2.trans hsd.2⟩

/-- A read through a virtual handle leaves the bytes and the identity of the
backing stream alone. -/
theorem tfs_fread_base (ptr : Bool) (size nmemb : Nat) (s : TFS_FILE) (base : FILE)
    (errno : Nat) (r : tfs_fread_result)
    (h : tfs_fread ptr size nmemb (Stream.tfs s) base errno = some r) :
    r.base.data = base.data ∧ r.base.ident = base.ident := by
  cases ptr with
  | false =>
    rw [tfs_fread_null] at h
    rw [← Option.some.inj h]
    exact ⟨rfl, rfl⟩
  | true =>
    exact read_result_base size s base errno r
      (fseek base (toLong (s.data_begin + s.now_pos)) SEEK_SET)
      (fseek_data base (toLong (s.data_begin + s.now_pos)) SEEK_SET)
      ((tfs_fread_of_seek size nmemb s base errno _ rfl).symm.trans h)

theorem fseek_set_indep (b1 b2 : FILE) (t : Int) (hd : b1.data = b2.data)
    (hi : b1.ident = b2.ident) :
    (fseek b1 t SEEK_SET).1 = (fseek b2 t SEEK_SET).1 ∧
    ((fseek b1 t SEEK_SET).1 = 0 → (fseek b1 t SEEK_SET).2 = (fseek b2 t SEEK_SET).2) := by
  by_cases ht : t < 0
  · rw [fseek_set_neg b1 t ht, fseek_set_neg b2 t ht]
    exact ⟨rfl, fun h => absurd (show (-1 : Int) = 0 from h) (by decide)⟩
  · rw [fseek_set_nonneg b1 t ht, fseek_set_nonneg b2 t ht]
    exact ⟨rfl, fun _ => FILE_with_pos_eq b1 b2 _ hd hi⟩

theorem read_shape_observed (size : Nat) (s : TFS_FILE) (errno : Nat) (sk1 sk2 : Int × FILE)
    (h1 : sk1.1 = sk2.1) (h2 : sk1.1 = 0 → sk1.2 = sk2.2) :
    observed (if sk1.1 ≠ 0 then some ⟨0, [], Stream.tfs s, sk1.2, errno⟩
      else
        match tfs_fread_loop size (s.data_len - s.now_pos + 1) sk1.2 s 0 [] with
        | none => none
        | some r => some ⟨toULong r.1, r.2.1, Stream.tfs r.2.2.1, r.2.2.2, errno⟩) =
    observed (if sk2.1 ≠ 0 then some ⟨0, [], Stream.tfs s, sk2.2, errno⟩
      else
        match tfs_fread_loop size (s.data_len - s.now_pos + 1) sk2.2 s 0 [] with
        | none => none
        | some r => some ⟨toULong r.1, r.2.1, Stream.tfs r.2.2.1, r.2.2.2, errno⟩) := by
  by_cases hs : sk1.1 ≠ 0
  · have hs2 : sk2.1 ≠ 0 := by rw [← h1]; exact hs
    rw [if_pos hs, if_pos hs2]
    rfl
  · have hs2 : ¬ sk2.1 ≠ 0 := by rw [← h1]; exact hs
    rw [if_neg hs, if_neg hs2, h2 (not_not.mp hs)]

/-- Two backing streams with the same bytes and identity give the same read,
wherever each of them stands. -/
theorem tfs_fread_observed_eq (ptr : Bool) (size nmemb : Nat) (s : TFS_FILE) (b1 b2 : FILE)
    (errno : Nat) (hd : b1.data = b2.data) (hi : b1.ident = b2.ident) :
    observed (tfs_fread ptr size nmemb (Stream.tfs s) b1 errno) =
      observed (tfs_fread ptr size nmemb (Stream.tfs s) b2 errno) := by
  cases ptr with
  | false =>
    have hn : observed (some (⟨0, [], Stream.tfs s, b1, ENOSR⟩ : tfs_fread_result)) =
        observed (some ⟨0, [], Stream.tfs s, b2, ENOSR⟩) := rfl
    exact (congrArg observed (tfs_fread_null size nmemb s b1 errno)).trans
      (hn.trans (congrArg observed (tfs_fread_null size nmemb s b2 errno)).symm)
  | true =>
    have hx := fseek_set_indep b1 b2 (toLong (s.data_begin + s.now_pos)) hd hi
    exact (congrArg observed (tfs_fread_of_seek size nmemb s b1 errno _ rfl)).trans
      ((read_shape_observed size s errno _ _ hx.1 hx.2).trans
        (congrArg observed (tfs_fread_of_seek size nmemb s b2 errno _ rfl)).symm)

theorem observed_some (a : Nat) (b : List Nat) (c : Stream) (d : FILE) (e : Nat) :
    observed (some ⟨a, b, c, d, e⟩) = some (a, b, c, e) :=
  rfl

/-- With fewer than 512 bytes left in the stream a round of `ctar_read` leaves
the loop, whether or not it reads into the fresh node first. -/
theorem ctar_read_head_eof (fp : FILE) (offset : Nat) (count : Int) (update : Bool)
    (archive : List ctar_t) (h : fp.data.length < fp.pos + 512) :
    ∃ fp2, ctar_read_head fp offset count update archive = Sum.inl (count, archive, fp2) ∧
      fp.pos ≤ fp2.pos := by
  rcases ctar_read_head_cases fp offset count update archive with
    ⟨fp2, h1, _, _, hp⟩ | ⟨block, fp1, update1, _, _, _, hp1, hp2, _⟩
  · exact ⟨fp2, h1, hp⟩
  · omega

/-- The `fseek` over the data blocks of an entry succeeds and moves forward. -/
theorem ctar_read_entry_forward (fp : FILE) (offset : Nat) (block : List Nat) :
    (ctar_read_entry fp offset block).2.2.1 = 0 ∧
    fp.pos ≤ (ctar_read_entry fp offset block).2.2.2.pos ∧
    (ctar_read_entry fp offset block).2.2.2.data = fp.data := by
  simp only [ctar_read_entry, fseek_cur_nat]
  exact ⟨trivial, Nat.le_add_right _ _, trivial⟩

theorem cstr_take : ∀ (l : List Nat) (k : Nat), cstr (l.take k) = (cstr l).take k
  | [], k => by simp [cstr]
  | x :: t, 0 => by simp [cstr]
  | x :: t, k + 1 => by
    by_cases hx : x = 0
    · subst hx
      rw [List.take_succ_cons, cstr_cons_zero, cstr_cons_zero]
      rfl
    · rw [List.take_succ_cons, cstr_cons_ne _ hx, cstr_cons_ne _ hx, List.take_succ_cons,
        cstr_take t k]

theorem cstr_length_lt_of_mem : ∀ (l : List Nat) (k : Nat), (0 : Nat) ∈ l.take k →
    (cstr l).length < k
  | [], k, h => by simp at h
  | x :: t, 0, h => by simp at h
  | x :: t, k + 1, h => by
    by_cases hx : x = 0
    · subst hx
      rw [cstr_cons_zero]
      exact Nat.succ_pos k
    · rw [List.take_succ_cons, List.mem_cons] at h
      rcases h with h | h
      · exact absurd h.symm hx
      · rw [cstr_cons_ne _ hx, List.length_cons]
        exact Nat.succ_lt_succ (cstr_length_lt_of_mem t k h)

theorem cstr_eq_self (n : List Nat) (h : ∀ c ∈ n, c ≠ 0) : cstr n = n := by
  unfold cstr
  rw [List.takeWhile_eq_self_iff]
  intro c hc
  simpa using h c hc

/-- For a name of fewer than 100 bytes, or an entry whose name field holds a
NUL, the comparison of the code and the comparison of stored names agree. -/
theorem name_agree (e : ctar_t) (n : List Nat) (hn : ∀ c ∈ n, c ≠ 0)
    (h : n.length < 100 ∨ (0 : Nat) ∈ e.block.take 100) :
    cstr e.name = cstr n ↔ storedName e = n := by
  rw [cstr_eq_self n hn]
  unfold storedName ctar_t.name
  rw [cstr_take]
  rcases h with h | h
  · constructor
    · intro heq
      rw [heq]
      exact List.take_of_length_le (by omega)
    · intro heq
      have hl : ((cstr e.block).take 100).length < 100 := by rw [heq]; exact h
      rw [List.length_take] at hl
      have hle : (cstr e.block).length ≤ 100 := by omega
      rw [List.take_of_length_le hle] at heq
      exact heq
  · have hlt := cstr_length_lt_of_mem e.block 100 h
    rw [List.take_of_length_le (by omega)]

theorem firstNamed_eq_firstStored : ∀ (archive : List ctar_t) (n : List Nat),
    (∀ c ∈ n, c ≠ 0) → nameFits archive n → firstNamed archive n = firstStored archive n
  | [], _, _, _ => rfl
  | e :: l, n, hn, hfit => by
    have hfit2 : nameFits l n := by
      rcases hfit with h | h
      · exact Or.inl h
      · exact Or.inr (fun x hx => h x (List.mem_cons_of_mem _ hx))
    have hag : (cstr e.name = cstr n) ↔ storedName e = n :=
      name_agree e n hn (by
        rcases hfit with h | h
        · exact Or.inl h
        · exact Or.inr (h e (List.mem_cons_self _ _)))
    have ih := firstNamed_eq_firstStored l n hn hfit2
    unfold firstNamed firstStored at ih ⊢
    rw [List.find?_cons, List.find?_cons, ih]
    by_cases hc : cstr e.name = cstr n
    · simp only [hc, hag.mp hc, decide_True]
    · have hs : ¬ storedName e = n := fun h => hc (hag.mpr h)
      simp only [hc, hs, decide_False]

/-- A round of `ctar_read` that meets a short read leaves the loop with the
count and the list as they are. -/
theorem ctar_read_head_short (fp : FILE) (offset : Nat) (count : Int) (update : Bool)
    (archive : List ctar_t) (h : shortRead fp update) :
    ∃ fp2, ctar_read_head fp offset count update archive = Sum.inl (count, archive, fp2) ∧
      fp2.data = fp.data ∧ fp2.ident = fp.ident ∧ fp.pos ≤ fp2.pos := by
  by_cases hlt : fp.data.length < fp.pos + 512
  · rcases ctar_read_head_cases fp offset count update archive with
      ⟨fp2, h1, hd, hi, hp⟩ | ⟨block, fp1, update1, _, _, _, hp1, hp2, _⟩
    · exact ⟨fp2, h1, hd, hi, hp⟩
    · omega
  · rcases h with h | ⟨hu, hz, h2⟩
    · exact absurd h hlt
    · subst hu
      have h1 : ((fp.data.drop fp.pos).take 512).length = 512 := by
        simp only [List.length_take, List.length_drop]; omega
      have hs : ¬ ((fp.data.drop (fp.pos + 512)).take 512).length = 512 := by
        simp only [List.length_take, List.length_drop]; omega
      have hb : (((fp.data.drop (fp.pos + 512)).take 512).length != 512) = true := by
        simpa using hs
      unfold ctar_read_head
      simp only [ctar_read_size_eq, fseek_cur_nat, if_true, Bool.true_and, h1, bne_self_eq_false,
        Bool.false_eq_true, if_false, hz, hb]
      exact ⟨_, rfl, rfl, rfl, by simp only; omega⟩

theorem ctar_read_loop_short (fuel : Nat) (fp : FILE) (offset : Nat) (count : Int)
    (update : Bool) (archive : List ctar_t) (h : shortRead fp update) :
    ∃ fp2, ctar_read_loop (fuel + 1) fp offset count update archive =
        some (count, archive, fp2) ∧
      fp2.data = fp.data ∧ fp2.ident = fp.ident ∧ fp.pos ≤ fp2.pos := by
  obtain ⟨fp2, h1, hd, hi, hp⟩ := ctar_read_head_short fp offset count update archive h
  refine ⟨fp2, ?_, hd, hi, hp⟩
  rw [ctar_read_loop, h1]

/-- The scan over members whose data length is the `jump` of their header,
whatever follows them: the loop arrives behind the members with their nodes
linked. -/
theorem ctar_read_loop_members_then : ∀ (ms : List Member),
    (∀ m ∈ ms, m.hdr.length = 512 ∧ ctar_iszeroed m.hdr 512 = false ∧
      m.data.length = jumpOf m.hdr) →
    ∀ (fp : FILE) (pre tail : List Nat) (offset : Nat) (count : Int) (acc : List ctar_t)
      (fuel : Nat),
      fp.data = pre ++ (memberBytes ms ++ tail) →
      fp.pos = pre.length →
      ∃ offset2, ctar_read_loop (ms.length + fuel) fp offset count true acc =
        ctar_read_loop fuel { fp with pos := pre.length + (memberBytes ms).length } offset2
          (count + (ms.length : Int)) true (acc ++ scanEntries offset ms) := by
  intro ms
  induction ms with
  | nil =>
    intro _ fp pre tail offset count acc fuel _ hp
    have hfp : ({ fp with pos := pre.length + (memberBytes []).length } : FILE) = fp := by
      cases fp
      simp only at hp
      simp only [memberBytes, List.length_nil, Nat.add_zero, hp]
    refine ⟨offset, ?_⟩
    rw [hfp]
    simp only [List.length_nil, Nat.zero_add, scanEntries, List.append_nil, Nat.cast_zero,
      Int.add_zero]
  | cons m ms ih =>
    intro hwf fp pre tail offset count acc fuel hd hp
    obtain ⟨hlen, hnz, hdata⟩ := hwf m (List.mem_cons_self _ _)
    have hd1 : fp.data = pre ++ (m.hdr ++ (m.data ++ (memberBytes ms ++ tail))) := by
      rw [hd]; simp only [memberBytes, List.append_assoc]
    have hfuel : (m :: ms).length + fuel = (ms.length + fuel) + 1 := by
      simp only [List.length_cons]; omega
    rw [hfuel, ctar_read_loop,
      ctar_read_head_header fp pre m.hdr _ offset count acc hd1 hp hlen hnz]
    simp only [ctar_read_entry, fseek_cur_nat]
    have hj : (if ctar_oct2uint (m.hdr.drop 124) 11 % 512 ≠ 0 then
          (ctar_oct2uint (m.hdr.drop 124) 11 + (512 - ctar_oct2uint (m.hdr.drop 124) 11 % 512))
            % 4294967296
        else ctar_oct2uint (m.hdr.drop 124) 11) = jumpOf m.hdr := rfl
    simp only [hj, show ((0 : Int) = -1) = False by decide, if_false]
    obtain ⟨offset2, h2⟩ := ih (fun x hx => hwf x (List.mem_cons_of_mem _ hx))
      { fp with pos := fp.pos + 512 + jumpOf m.hdr } (pre ++ (m.hdr ++ m.data)) tail
      ((offset + (512 + jumpOf m.hdr)) % 4294967296) (count + 1)
      (acc ++ [{ original_name := List.replicate 100 0, begin := offset, block := m.hdr }]) fuel
      (by simp only [hd1, List.append_assoc])
      (by simp only [hp, List.length_append, hlen, hdata]; omega)
    refine ⟨offset2, ?_⟩
    rw [h2]
    have hpos : (pre ++ (m.hdr ++ m.data)).length + (memberBytes ms).length =
        pre.length + (memberBytes (m :: ms)).length := by
      simp only [memberBytes, List.length_append]; omega
    have hcount : count + 1 + (ms.length : Int) = count + ((m :: ms).length : Int) := by
      simp only [List.length_cons, Nat.cast_add, Nat.cast_one]; omega
    simp only [hpos, hcount, scanEntries, List.append_assoc, List.singleton_append]

/-- The scan of members followed by a tail at which it meets a short read:
the count of the members and their nodes are returned. -/
theorem ctar_read_members_short (ident : Nat) (ms : List Member) (tail : List Nat)
    (hwf : ∀ m ∈ ms, m.hdr.length = 512 ∧ ctar_iszeroed m.hdr 512 = false ∧
      m.data.length = jumpOf m.hdr)
    (hshort : shortRead
      { ident := ident, data := memberBytes ms ++ tail, pos := (memberBytes ms).length } true) :
    ∃ fp2, ctar_read { ident := ident, data := memberBytes ms ++ tail, pos := 0 } [] =
        some ((ms.length : Int), scanEntries 0 ms, fp2) ∧
      fp2.data = memberBytes ms ++ tail ∧ fp2.ident = ident := by
  have hle := members_le_memberBytes ms (fun m hm => (hwf m hm).1)
  obtain ⟨k, hk⟩ : ∃ k, (memberBytes ms ++ tail).length + 1 = ms.length + (k + 1) :=
    ⟨(memberBytes ms ++ tail).length - ms.length, by
      simp only [List.length_append]; omega⟩
  obtain ⟨offset2, h2⟩ := ctar_read_loop_members_then ms hwf
    { ident := ident, data := memberBytes ms ++ tail, pos := 0 } [] tail 0 0 [] (k + 1)
    (by simp only [List.nil_append]) rfl
  obtain ⟨fp2, h3, hd, hi, _⟩ := ctar_read_loop_short k
    { ident := ident, data := memberBytes ms ++ tail, pos := (memberBytes ms).length }
    offset2 (0 + (ms.length : Int)) true ([] ++ scanEntries 0 ms) hshort
  refine ⟨fp2, ?_, hd, hi⟩
  unfold ctar_read
  simp only [List.isEmpty_nil, if_true]
  show ctar_read_loop ((memberBytes ms ++ tail).length + 1) _ 0 0 true [] = _
  rw [hk, h2]
  simp only [List.length_nil, Nat.zero_add] at h3 ⊢
  rw [h3]
  simp only [Int.zero_add, List.nil_append]

theorem truncatedMember_wellFormed : truncatedMember.wellFormed := by
  refine ⟨exampleHeader_length _ _ _ (by decide) (by decide), by decide!, ?_⟩
  have h : truncatedMember.size = 10 := by decide!
  rw [h]
  exact zeroBlock_length

theorem tfs_fread_loop_returns (size fuel : Nat) (base : FILE) (stream : TFS_FILE)
    (count : Int) (out : List Nat) (hf : stream.data_len - stream.now_pos < fuel) :
    ∃ r, tfs_fread_loop size fuel base stream count out = some r := by
  by_cases hinv : stream.now_pos ≤ stream.data_len
  · obtain ⟨r, hr, _⟩ := tfs_fread_loop_with_cursor (fun b n => fread b 1 n) size
      fread_count_le fuel base stream count out hinv hf
    exact ⟨r, by rw [tfs_fread_loop_eq_with]; exact hr⟩
  · obtain ⟨k, rfl⟩ : ∃ k, fuel = k + 1 := ⟨fuel - 1, by omega⟩
    rw [tfs_fread_loop, if_neg (by omega)]
    exact ⟨_, rfl⟩

theorem read_shape_returns (size : Nat) (s : TFS_FILE) (errno : Nat) (sk : Int × FILE) :
    ∃ r, (if sk.1 ≠ 0 then some ⟨0, [], Stream.tfs s, sk.2, errno⟩
      else
        match tfs_fread_loop size (s.data_len - s.now_pos + 1) sk.2 s 0 [] with
        | none => none
        | some r => some ⟨toULong r.1, r.2.1, Stream.tfs r.2.2.1, r.2.2.2, errno⟩) =
      some (r : tfs_fread_result) := by
  by_cases hs : sk.1 ≠ 0
  · rw [if_pos hs]
    exact ⟨_, rfl⟩
  · rw [if_neg hs]
    obtain ⟨r0, h0⟩ := tfs_fread_loop_returns size (s.data_len - s.now_pos + 1) sk.2 s 0 []
      (by omega)
    rw [h0]
    exact ⟨_, rfl⟩

/-- A read through a virtual handle returns, whatever the handle, the buffer
pointer and the backing stream are. -/
theorem tfs_fread_returns (ptr : Bool) (size nmemb : Nat) (s : TFS_FILE) (base : FILE)
    (errno : Nat) : ∃ r, tfs_fread ptr size nmemb (Stream.tfs s) base errno = some r := by
  cases ptr with
  | false => exact ⟨_, tfs_fread_null size nmemb s base errno⟩
  | true =>
    obtain ⟨r, hr⟩ := read_shape_returns size s errno
      (fseek base (toLong (s.data_begin + s.now_pos)) SEEK_SET)
    exact ⟨r, (tfs_fread_of_seek size nmemb s base errno _ rfl).trans hr⟩

theorem observed_inj (r1 r2 : tfs_fread_result)
    (h : observed (some r1) = observed (some r2)) :
    r1.ret = r2.ret ∧ r1.out = r2.out ∧ r1.stream = r2.stream ∧ r1.errno = r2.errno := by
  unfold observed at h
  simp only [Option.map_some', Option.some.injEq, Prod.mk.injEq] at h
  exact h

/-- Over two backing streams with the same bytes and identity a read returns
on both, with the same count, bytes, handle and `errno`. -/
theorem tfs_fread_pair (ptr : Bool) (size nmemb : Nat) (s : TFS_FILE) (b1 b2 : FILE)
    (errno : Nat) (hd : b1.data = b2.data) (hi : b1.ident = b2.ident) :
    ∃ r1 r2, tfs_fread ptr size nmemb (Stream.tfs s) b1 errno = some r1 ∧
      tfs_fread ptr size nmemb (Stream.tfs s) b2 errno = some r2 ∧
      r1.ret = r2.ret ∧ r1.out = r2.out ∧ r1.stream = r2.stream ∧ r1.errno = r2.errno := by
  obtain ⟨r1, h1⟩ := tfs_fread_returns ptr size nmemb s b1 errno
  obtain ⟨r2, h2⟩ := tfs_fread_returns ptr size nmemb s b2 errno
  have h := tfs_fread_observed_eq ptr size nmemb s b1 b2 errno hd hi
  rw [h1, h2] at h
  exact ⟨r1, r2, h1, h2, observed_inj r1 r2 h⟩

theorem read_fields (x : Option tfs_fread_result) (a : Nat) (b : List Nat) (c : Stream)
    (d : FILE) (e : Nat) (h : x = some ⟨a, b, c, d, e⟩) :
    ∃ q, x = some q ∧ q.out = b ∧ q.stream = c ∧ q.ret = a :=
  ⟨_, h, rfl, rfl, rfl⟩

/-! ## Claims -/

/-- C2 (code at the failing input, Scenario E): `notes.txt` holds the 10 bytes
`0123456789`; the first `read` of one item of 5 bytes on a fresh handle stores
all 10 bytes, returns 2 and leaves `tell()` at 10, and a second such `read`
returns 0 with `tell()` still 10: `nmemb` is never consulted. -/
theorem fread_ignores_item_count :
    tfs_inittarfile (oneFile notesArchive) { tfs_rootentry := [], tfs_currfile := none, errno := 0 }
      [116] = some notesState ∧
    (tfs_fopen (oneFile notesArchive) notesState (64 :: 47 :: notesName) [114]).1 =
      some (Stream.tfs notesHandle) ∧
    ∃ r1 r2, tfs_fread true 5 1 (Stream.tfs notesHandle) notesFile 0 = some r1 ∧
      r1.ret = 2 ∧ r1.out = notesData ∧ tfs_ftell r1.stream = 10 ∧
      tfs_fread true 5 1 r1.stream r1.base 0 = some r2 ∧
      r2.ret = 0 ∧ r2.out = [] ∧ tfs_ftell r2.stream = 10 := by
  refine ⟨notes_loaded, notes_opened _, ?_⟩
  have h1 := tfs_fread_virtual_full 5 1 notesHandle notesFile 0 (by decide) (by decide)
    (by decide!) (by decide)
  have h2 := tfs_fread_virtual_full 5 1 { notesHandle with now_pos := notesHandle.data_len }
    { notesFile with pos := notesHandle.data_begin + notesHandle.data_len } 0 (by decide)
    (by decide) (by decide!) (by decide)
  exact ⟨_, _, h1, by decide, by decide!, by decide, h2, by decide, by decide!, by decide⟩

/-- C3 (code at the failing input, Scenario A): on the 10-byte `notes.txt` a
`read` of one item of 64 bytes stores the 10 bytes and returns 1, not 0: the
short final chunk is counted as an item. -/
theorem fread_counts_short_chunk :
    tfs_inittarfile (oneFile notesArchive) { tfs_rootentry := [], tfs_currfile := none, errno := 0 }
      [116] = some notesState ∧
    (tfs_fopen (oneFile notesArchive) notesState (64 :: 47 :: notesName) [114]).1 =
      some (Stream.tfs notesHandle) ∧
    ∃ r, tfs_fread true 64 1 (Stream.tfs notesHandle) notesFile 0 = some r ∧
      r.out = notesData ∧ r.out.length / 64 = 0 ∧ r.ret = 1 := by
  refine ⟨notes_loaded, notes_opened _, ?_⟩
  have h1 := tfs_fread_virtual_full 64 1 notesHandle notesFile 0 (by decide) (by decide)
    (by decide!) (by decide)
  exact ⟨_, h1, by decide!, by decide!, by decide⟩

/-- C5 (as amended): let `n` be a name (without NUL) of fewer than 100 bytes,
or let every name field of the directory hold a NUL. For the path "@/" ++ n,
`open` returns a handle exactly when the first entry in scan order with stored
name `n` exists and has type regular or contiguous. Otherwise it returns null:
with ENOMEM when the archive directory is empty (nothing loaded, or a loaded
archive without members), with ENOENT when the directory is not empty and no
entry has the stored name `n`, and with `errno` untouched when the entry found
has another type (directory, link, device, FIFO). -/
theorem open_outcomes (os : OS) (st : tfs_state) (n mode : List Nat)
    (hnul : ∀ c ∈ n, c ≠ 0) (hfit : nameFits st.tfs_rootentry n) :
    ((∃ h, (tfs_fopen os st (64 :: 47 :: n) mode).1 = some h) ↔
      ∃ e, firstStored st.tfs_rootentry n = some e ∧ isFileLike e) ∧
    (st.tfs_rootentry = [] →
      tfs_fopen os st (64 :: 47 :: n) mode = (none, { st with errno := ENOMEM })) ∧
    (st.tfs_rootentry ≠ [] → firstStored st.tfs_rootentry n = none →
      tfs_fopen os st (64 :: 47 :: n) mode = (none, { st with errno := ENOENT })) ∧
    (∀ e, firstStored st.tfs_rootentry n = some e → ¬ isFileLike e →
      tfs_fopen os st (64 :: 47 :: n) mode = (none, st)) := by
  rw [← firstNamed_eq_firstStored st.tfs_rootentry n hnul hfit, tfs_fopen_virtual]
  cases hl : st.tfs_rootentry with
  | nil => simp [firstNamed]
  | cons a l =>
    simp only [List.isEmpty_cons, Bool.false_eq_true, if_false]
    cases hf : firstNamed (a :: l) n with
    | none => simp
    | some e =>
      by_cases hfile : isFileLike e
      · simp [hfile]
      · simp [hfile]

/-- Witness for C5: on the state that holds `notesArchive`, the name
`notes.txt` is served and the name `x` is not found. -/
theorem open_outcomes_witness :
    ((∃ h, (tfs_fopen noFiles notesState (64 :: 47 :: notesName) [114]).1 = some h) ↔
      ∃ e, firstStored notesState.tfs_rootentry notesName = some e ∧ isFileLike e) ∧
    firstStored notesState.tfs_rootentry notesName = some notesEntry ∧
    firstStored notesState.tfs_rootentry [120] = none ∧
    tfs_fopen noFiles notesState [64, 47, 120] [114] =
      (none, { notesState with errno := ENOENT }) :=
  ⟨(open_outcomes noFiles notesState notesName [114] (by decide) (Or.inl (by decide))).1,
    by decide!, by decide!,
    (open_outcomes noFiles notesState [120] [114] (by decide) (Or.inl (by decide))).2.2.1
      (by decide!) (by decide!)⟩

/-- Counterexample to C5 as stated: loading an archive that consists of the two
terminating zero blocks succeeds (the backing stream is retained) and leaves the
directory empty; a later `open("@/n")` then fails with ENOMEM although an
archive is loaded and no entry has the stored name `n`. -/
theorem open_outcomes_counterexample :
    ∃ st, tfs_inittarfile (oneFile (List.replicate 1024 0))
        { tfs_rootentry := [], tfs_currfile := none, errno := 0 } [116] = some st ∧
      st.tfs_currfile.isSome = true ∧
      firstStored st.tfs_rootentry [110] = none ∧
      tfs_fopen (oneFile (List.replicate 1024 0)) st [64, 47, 110] [114] =
        (none, { st with errno := ENOMEM }) ∧
      ENOMEM ≠ ENOENT := by
  refine ⟨emptyArchiveState, ?_, rfl, rfl, rfl, by decide⟩
  decide!

/-- C6: for every path that does not start with the marker '@' and every mode,
`open` returns what the ordinary `fopen` returns for the same path and mode,
leaves the process state alone, and gives the same result whatever the
process-wide archive state is. -/
theorem open_pass_through (os : OS) (st st2 : tfs_state) (pathname mode : List Nat)
    (h : pathname.headD 0 ≠ TFS_PATH_PREFIX) :
    (tfs_fopen os st pathname mode).1 = (os.fopen (cstr pathname) (cstr mode)).map Stream.std ∧
    (tfs_fopen os st pathname mode).2 = st ∧
    (tfs_fopen os st2 pathname mode).1 = (tfs_fopen os st pathname mode).1 := by
  rw [tfs_fopen_other os st pathname mode h, tfs_fopen_other os st2 pathname mode h]
  exact ⟨rfl, rfl, rfl⟩

/-- Witness for C6: the path `t` on a system whose only file is `t`, with an
archive loaded and with none. -/
theorem open_pass_through_witness :
    (tfs_fopen (oneFile notesData) notesState [116] [114]).1 =
      ((oneFile notesData).fopen (cstr [116]) (cstr [114])).map Stream.std ∧
    (tfs_fopen (oneFile notesData) notesState [116] [114]).2 = notesState ∧
    (tfs_fopen (oneFile notesData) { tfs_rootentry := [], tfs_currfile := none, errno := 0 }
      [116] [114]).1 = (tfs_fopen (oneFile notesData) notesState [116] [114]).1 :=
  open_pass_through (oneFile notesData) notesState
    { tfs_rootentry := [], tfs_currfile := none, errno := 0 } [116] [114] (by decide)

/-- C7: on a virtual handle with length L and cursor c <= L, for every `long`
offset o, `seek(o, FromStart)` succeeds iff 0 <= o <= L and `seek(o, FromCurrent)`
succeeds iff 0 <= c + o <= L. On success the call returns 0, changes only the
cursor, and `tell` then returns o (resp. c + o); on failure it returns -1, puts
ESPIPE into the handle's lastError (and `errno`), and `tell` still returns c. -/
theorem seek_start_current (s : TFS_FILE) (o : Int) (errno : Nat)
    (hL : s.data_len < 9223372036854775808) (hc : s.now_pos ≤ s.data_len)
    (ho1 : -9223372036854775808 ≤ o) (ho2 : o < 9223372036854775808) :
    (tfs_fseek (Stream.tfs s) o SEEK_SET errno =
      if 0 ≤ o ∧ o ≤ (s.data_len : Int) then
        (0, Stream.tfs { s with now_pos := o.toNat }, errno)
      else (-1, Stream.tfs { s with _errno := ESPIPE }, ESPIPE)) ∧
    (tfs_fseek (Stream.tfs s) o SEEK_CUR errno =
      if 0 ≤ (s.now_pos : Int) + o ∧ (s.now_pos : Int) + o ≤ (s.data_len : Int) then
        (0, Stream.tfs { s with now_pos := ((s.now_pos : Int) + o).toNat }, errno)
      else (-1, Stream.tfs { s with _errno := ESPIPE }, ESPIPE)) ∧
    (0 ≤ o ∧ o ≤ (s.data_len : Int) →
      tfs_ftell (tfs_fseek (Stream.tfs s) o SEEK_SET errno).2.1 = o) ∧
    (0 ≤ (s.now_pos : Int) + o ∧ (s.now_pos : Int) + o ≤ (s.data_len : Int) →
      tfs_ftell (tfs_fseek (Stream.tfs s) o SEEK_CUR errno).2.1 = (s.now_pos : Int) + o) ∧
    (¬ (0 ≤ o ∧ o ≤ (s.data_len : Int)) →
      (tfs_fseek (Stream.tfs s) o SEEK_SET errno).1 ≠ 0 ∧
      tfs_ftell (tfs_fseek (Stream.tfs s) o SEEK_SET errno).2.1 = tfs_ftell (Stream.tfs s) ∧
      tfs_ferror (tfs_fseek (Stream.tfs s) o SEEK_SET errno).2.1 = ESPIPE) ∧
    (¬ (0 ≤ (s.now_pos : Int) + o ∧ (s.now_pos : Int) + o ≤ (s.data_len : Int)) →
      (tfs_fseek (Stream.tfs s) o SEEK_CUR errno).1 ≠ 0 ∧
      tfs_ftell (tfs_fseek (Stream.tfs s) o SEEK_CUR errno).2.1 = tfs_ftell (Stream.tfs s) ∧
      tfs_ferror (tfs_fseek (Stream.tfs s) o SEEK_CUR errno).2.1 = ESPIPE) := by
  have hlen : toLong (s.data_len : Int) = (s.data_len : Int) := toLong_natCast_of_lt hL
  have hset : tfs_fseek (Stream.tfs s) o SEEK_SET errno =
      if 0 ≤ o ∧ o ≤ (s.data_len : Int) then
        (0, Stream.tfs { s with now_pos := o.toNat }, errno)
      else (-1, Stream.tfs { s with _errno := ESPIPE }, ESPIPE) := by
    unfold tfs_fseek
    simp only [if_true, hlen]
    by_cases hin : 0 ≤ o ∧ o ≤ (s.data_len : Int)
    · have h1 : ¬ (o < 0 ∨ o > (s.data_len : Int)) := by omega
      have h2 : toULong o = o.toNat := by unfold toULong; omega
      rw [if_neg h1, if_pos hin, h2]
    · have h1 : o < 0 ∨ o > (s.data_len : Int) := by omega
      rw [if_pos h1, if_neg hin]
  have hsum : toLong ((toULong o + s.now_pos : Nat) : Int) =
      toLong ((s.now_pos : Int) + o) := by
    unfold toLong toULong; omega
  have hcur : tfs_fseek (Stream.tfs s) o SEEK_CUR errno =
      if 0 ≤ (s.now_pos : Int) + o ∧ (s.now_pos : Int) + o ≤ (s.data_len : Int) then
        (0, Stream.tfs { s with now_pos := ((s.now_pos : Int) + o).toNat }, errno)
      else (-1, Stream.tfs { s with _errno := ESPIPE }, ESPIPE) := by
    unfold tfs_fseek
    simp only [show SEEK_CUR ≠ SEEK_SET by decide, if_false, if_true, hlen, hsum]
    by_cases hin : 0 ≤ (s.now_pos : Int) + o ∧ (s.now_pos : Int) + o ≤ (s.data_len : Int)
    · have h0 : toLong ((s.now_pos : Int) + o) = (s.now_pos : Int) + o :=
        toLong_of_lt hin.1 (by omega)
      have h1 : ¬ ((s.now_pos : Int) + o < 0 ∨ (s.now_pos : Int) + o > (s.data_len : Int)) := by
        omega
      have h2 : toULong ((s.now_pos : Int) + o) = ((s.now_pos : Int) + o).toNat := by
        unfold toULong; omega
      rw [h0, if_neg h1, if_pos hin, h2]
    · have h1 : toLong ((s.now_pos : Int) + o) < 0 ∨
          toLong ((s.now_pos : Int) + o) > (s.data_len : Int) := by
        unfold toLong; omega
      rw [if_pos h1, if_neg hin]
  have htell : ∀ n : Nat, n ≤ s.data_len →
      tfs_ftell (Stream.tfs { s with now_pos := n }) = (n : Int) := by
    intro n hn
    show toLong (n : Int) = (n : Int)
    exact toLong_natCast_of_lt (by omega)
  refine ⟨hset, hcur, ?_, ?_, ?_, ?_⟩
  · intro hin
    rw [hset, if_pos hin]
    show tfs_ftell (Stream.tfs { s with now_pos := o.toNat }) = o
    rw [htell _ (by omega)]; omega
  · intro hin
    rw [hcur, if_pos hin]
    show tfs_ftell (Stream.tfs { s with now_pos := ((s.now_pos : Int) + o).toNat }) = _
    rw [htell _ (by omega)]; omega
  · intro hin
    rw [hset, if_neg hin]
    exact ⟨by show (-1 : Int) ≠ 0; decide, rfl, rfl⟩
  · intro hin
    rw [hcur, if_neg hin]
    exact ⟨by show (-1 : Int) ≠ 0; decide, rfl, rfl⟩

/-- Witness for C7: the handle on `notes.txt` (L = 10) moved to cursor 4, and
the offset 11 = L + 1, which is refused from the start and from the cursor. -/
theorem seek_start_current_witness :
    tfs_fseek (Stream.tfs { notesHandle with now_pos := 4 }) 11 SEEK_SET 0 =
      (-1, Stream.tfs { notesHandle with now_pos := 4, _errno := ESPIPE }, ESPIPE) ∧
    tfs_fseek (Stream.tfs { notesHandle with now_pos := 4 }) 0 SEEK_SET 0 =
      (0, Stream.tfs notesHandle, 0) ∧
    tfs_fseek (Stream.tfs { notesHandle with now_pos := 4 }) 6 SEEK_CUR 0 =
      (0, Stream.tfs { notesHandle with now_pos := 10 }, 0) := by
  have h11 := seek_start_current { notesHandle with now_pos := 4 } 11 0 (by decide) (by decide)
    (by decide) (by decide)
  have h0 := seek_start_current { notesHandle with now_pos := 4 } 0 0 (by decide) (by decide)
    (by decide) (by decide)
  have h6 := seek_start_current { notesHandle with now_pos := 4 } 6 0 (by decide) (by decide)
    (by decide) (by decide)
  exact ⟨h11.1, h0.1, h6.2.1⟩

/-- C9: on a virtual handle whose cursor equals dataRegionLength (so on every
handle of a zero-length entry), a `read` with a non-null buffer and any
itemSize and itemCount returns 0, stores nothing, and leaves the handle (cursor
and lastError included) and `errno` unchanged. -/
theorem read_at_end (s : TFS_FILE) (base : FILE) (size nmemb errno : Nat)
    (hc : s.now_pos = s.data_len) :
    ∃ r, tfs_fread true size nmemb (Stream.tfs s) base errno = some r ∧
      r.ret = 0 ∧ r.out = [] ∧ r.stream = Stream.tfs s ∧ r.errno = errno ∧
      tfs_ftell r.stream = tfs_ftell (Stream.tfs s) ∧
      tfs_ferror r.stream = tfs_ferror (Stream.tfs s) := by
  have hloop : ∀ b : FILE,
      tfs_fread_loop size (s.data_len - s.now_pos + 1) b s 0 [] = some (0, [], s, b) := by
    intro b
    rw [hc, Nat.sub_self]
    simp only [tfs_fread_loop, hc, Nat.lt_irrefl, if_false]
  unfold tfs_fread
  simp only [Bool.not_true, Bool.false_eq_true, if_false]
  split
  · exact ⟨_, rfl, rfl, rfl, rfl, rfl, rfl, rfl⟩
  · rw [hloop]
    exact ⟨_, rfl, rfl, rfl, rfl, rfl, rfl, rfl⟩

/-- Witness for C9: the handle on `notes.txt` with its cursor at the end. -/
theorem read_at_end_witness :
    ∃ r, tfs_fread true 5 1 (Stream.tfs { notesHandle with now_pos := 10 }) notesFile 0 = some r ∧
      r.ret = 0 ∧ r.out = [] ∧ r.stream = Stream.tfs { notesHandle with now_pos := 10 } ∧
      r.errno = 0 ∧
      tfs_ftell r.stream = tfs_ftell (Stream.tfs { notesHandle with now_pos := 10 }) ∧
      tfs_ferror r.stream = tfs_ferror (Stream.tfs { notesHandle with now_pos := 10 }) :=
  read_at_end { notesHandle with now_pos := 10 } notesFile 5 1 0 rfl

/-- C12 (as amended): a short read of a 512-byte block ends the scan without
a failure, and the entries collected so far are returned. When the scan, having
passed the well-formed members `ms` of a stream (below 2^32 bytes), meets a
short read in what follows them, `ctar_read` returns the count of these members
and leaves exactly their nodes linked, in order; `tfs_inittarfile` on such a
stream, when the probe accepts it (and no directory was loaded before), retains
the stream and stores these nodes. At any point of the scan (any offset
counter, count, update flag and list so far) a round that meets a short read
makes the loop return the count and the list as they are. -/
theorem scan_short_read (ident : Nat) (ms : List Member) (tail : List Nat)
    (hwf : ∀ m ∈ ms, m.wellFormed)
    (hlen : (memberBytes ms).length < 4294967296)
    (hshort : shortRead
      { ident := ident, data := memberBytes ms ++ tail, pos := (memberBytes ms).length } true) :
    (∃ fp2, ctar_read { ident := ident, data := memberBytes ms ++ tail, pos := 0 } [] =
        some ((ms.length : Int), scanEntries 0 ms, fp2) ∧
      fp2.data = memberBytes ms ++ tail) ∧
    (∀ (os : OS) (st : tfs_state) (pathname : List Nat),
      os.fopen (cstr pathname) [114, 98] =
        some { ident := ident, data := memberBytes ms ++ tail, pos := 0 } →
      (ctar_istarfile { ident := ident, data := memberBytes ms ++ tail, pos := 0 }).1 = true →
      st.tfs_rootentry = [] →
      ∃ fp2, tfs_inittarfile os st pathname =
          some { st with tfs_rootentry := scanEntries 0 ms, tfs_currfile := some fp2 } ∧
        fp2.data = memberBytes ms ++ tail) ∧
    (∀ (fuel : Nat) (fp : FILE) (offset : Nat) (count : Int) (update : Bool)
        (archive : List ctar_t), shortRead fp update →
      ∃ fp2, ctar_read_loop (fuel + 1) fp offset count update archive =
          some (count, archive, fp2) ∧ fp2.data = fp.data) := by
  have hjump := wellFormed_jump ms hwf hlen
  have hms : ∀ m ∈ ms, m.hdr.length = 512 ∧ ctar_iszeroed m.hdr 512 = false ∧
      m.data.length = jumpOf m.hdr :=
    fun m hm => ⟨(hwf m hm).1, (hwf m hm).2.1, (hjump m hm).2.1⟩
  obtain ⟨fp2, h, hd, _⟩ := ctar_read_members_short ident ms tail hms hshort
  refine ⟨⟨fp2, h, hd⟩, ?_, ?_⟩
  · intro os st pathname hopen hprobe hroot
    have hfp : (ctar_istarfile { ident := ident, data := memberBytes ms ++ tail, pos := 0 }).2 =
        { ident := ident, data := memberBytes ms ++ tail, pos := 0 } := by
      by_cases hl : (memberBytes ms ++ tail).length < 1024
      · rw [ctar_istarfile_short _ hl]
      · rw [ctar_istarfile_long _ hl (by show (0 : Nat) < 9223372036854775808; decide)]
    refine ⟨fp2, ?_, hd⟩
    unfold tfs_inittarfile
    rw [hopen]
    simp only [hprobe, if_true, hroot, hfp, h]
  · intro fuel fp offset count update archive hs
    obtain ⟨fp3, h3, hd3, _, _⟩ := ctar_read_loop_short fuel fp offset count update archive hs
    exact ⟨fp3, h3, hd3⟩

/-- Witness for C12 (as amended): `truncatedArchive`, the member
`truncatedMember` followed by a single zero block, scanned and loaded; and a
round of the loop that starts behind the end of a stream holding only the
header of `notes.txt`, whose size field points past the end. -/
theorem scan_short_read_witness :
    shortRead
      { ident := 1, data := memberBytes [truncatedMember] ++ zeroBlock,
        pos := (memberBytes [truncatedMember]).length } true ∧
    memberBytes [truncatedMember] ++ zeroBlock = truncatedArchive ∧
    (∃ fp2, ctar_read
        { ident := 1, data := memberBytes [truncatedMember] ++ zeroBlock, pos := 0 } [] =
        some (([truncatedMember].length : Int), scanEntries 0 [truncatedMember], fp2) ∧
      fp2.data = memberBytes [truncatedMember] ++ zeroBlock) ∧
    scanEntries 0 [truncatedMember] = [notesEntry] ∧
    (∃ fp2, tfs_inittarfile (oneFile (memberBytes [truncatedMember] ++ zeroBlock))
        { tfs_rootentry := [], tfs_currfile := none, errno := 0 } [116] =
        some { tfs_rootentry := scanEntries 0 [truncatedMember], tfs_currfile := some fp2,
               errno := 0 } ∧
      fp2.data = memberBytes [truncatedMember] ++ zeroBlock) ∧
    (∃ fp2, ctar_read_loop 1 { ident := 1, data := notesHeader, pos := 1024 } 1024 1 true
        [notesEntry] = some (1, [notesEntry], fp2) ∧ fp2.data = notesHeader) := by
  have h := scan_short_read 1 [truncatedMember] zeroBlock
    (by
      intro m hm
      simp only [List.mem_singleton] at hm
      rw [hm]
      exact truncatedMember_wellFormed)
    (by decide!) (by decide!)
  exact ⟨by decide!, by decide!, h.1, by decide!,
    h.2.1 (oneFile (memberBytes [truncatedMember] ++ zeroBlock))
      { tfs_rootentry := [], tfs_currfile := none, errno := 0 } [116] rfl (by decide!) rfl,
    h.2.2 0 { ident := 1, data := notesHeader, pos := 1024 } 1024 1 true [notesEntry]
      (by decide!)⟩

/-- Counterexample to C12 as stated: on `truncatedArchive` the scan meets a
short read (one zero block, then the end of the stream) and returns the success
count 1 with the entry collected so far; `tfs_inittarfile` on it leaves the
archive loaded, with that entry and the stream. -/
theorem scan_short_read_counterexample :
    ctar_read { ident := 1, data := truncatedArchive, pos := 0 } [] =
      some (1, [notesEntry], { ident := 1, data := truncatedArchive, pos := 1536 }) ∧
    tfs_inittarfile (oneFile truncatedArchive)
      { tfs_rootentry := [], tfs_currfile := none, errno := 0 } [116] =
      some { tfs_rootentry := [notesEntry]
             tfs_currfile := some { ident := 1, data := truncatedArchive, pos := 1536 }
             errno := 0 } := by
  constructor <;> decide!

/-- C13 (code at the failing input): the entry `longNameEntry` has the stored
name `a...a` (100 bytes, filling the name field), yet `ctar_exists` does not
find it under that name: the code reads `entry->name` as a NUL-terminated
string, which here runs on into the mode field (`a...a0000644`, 107 bytes), and
only that longer string is found. A list whose first entry has a terminated
name field of the same first bytes is matched as the claim says. -/
theorem lookup_full_name_field :
    storedName longNameEntry = List.replicate 100 97 ∧
    ctar_exists [longNameEntry] (List.replicate 100 97) false = none ∧
    cstr longNameEntry.name = List.replicate 100 97 ++ [48, 48, 48, 48, 54, 52, 52] ∧
    ctar_exists [longNameEntry] (List.replicate 100 97 ++ [48, 48, 48, 48, 54, 52, 52]) false =
      some longNameEntry ∧
    ctar_exists [longNameEntry, notesEntry, notesEntry] notesName false = some notesEntry ∧
    ctar_exists [notesEntry] [110, 111, 116, 101, 115] false = none := by
  refine ⟨by decide!, by decide!, by decide!, by decide!, by decide!, by decide!⟩

/-- C14: for a field whose first k bytes (k <= maxLen) are the octal digits
d_0 .. d_(k-1) (bytes '0'..'7') and which has k = maxLen or a NUL at index k,
`ctar_oct2uint(field, maxLen)` is the base-8 value sum d_i * 8^(k-1-i) reduced
modulo 2^32; each shift-and-or round equals result*8 + digit (mod 2^32); a
field that starts with NUL decodes to 0. -/
theorem decode_octal_digits (digits rest : List Nat) (maxLen : Nat)
    (hd : ∀ d ∈ digits, d < 8) (hk : digits.length ≤ maxLen)
    (hend : digits.length = maxLen ∨ rest.headD 0 = 0) :
    ctar_oct2uint (digits.map (fun d => d + 48) ++ rest) maxLen =
      octalValue digits % 4294967296 ∧
    (∀ out d, d < 8 →
      ((out <<< 3) % 4294967296) ||| toUInt (charVal (d + 48) - 48) =
        (out * 8 + d) % 4294967296) ∧
    ctar_oct2uint (0 :: rest) maxLen = 0 := by
  refine ⟨?_, fun out d h => octStep_digit out d h, ?_⟩
  · unfold ctar_oct2uint
    rw [ctar_oct2uint_loop_fold (digits.map (fun d => d + 48)) maxLen rest 0
      (by
        intro c hc
        obtain ⟨d, _, rfl⟩ := List.mem_map.mp hc
        omega)
      (by simpa using hk) (by simpa using hend)]
    have h1 := foldl_octStep_digits digits 0 hd
    have h2 := foldl_octStep_lt (digits.map (fun d => d + 48)) 0 (by decide)
    rw [Nat.mod_eq_of_lt h2] at h1
    rw [h1]
    simp
  · unfold ctar_oct2uint
    cases maxLen with
    | zero => rfl
    | succ k =>
      rw [ctar_oct2uint_loop]
      simp

/-- Witness for C14: the size field `00000000012` followed by NUL, read with
maxLen 11, decodes to 10. -/
theorem decode_octal_digits_witness :
    ctar_oct2uint ([0, 0, 0, 0, 0, 0, 0, 0, 0, 1, 2].map (fun d => d + 48) ++ [0]) 11 =
      octalValue [0, 0, 0, 0, 0, 0, 0, 0, 0, 1, 2] % 4294967296 ∧
    (∀ out d, d < 8 →
      ((out <<< 3) % 4294967296) ||| toUInt (charVal (d + 48) - 48) =
        (out * 8 + d) % 4294967296) ∧
    ctar_oct2uint (0 :: [0]) 11 = 0 :=
  decode_octal_digits [0, 0, 0, 0, 0, 0, 0, 0, 0, 1, 2] [0] 11 (by decide) (by decide)
    (by decide)

/-- C15: on a stream of length n at position p, `ctar_istarfile` returns true
iff n >= 1024 and the last 1024 bytes of the stream are all zero, and in every
case the stream is left at position p (the stream afterwards is the stream
before). -/
theorem probe_last_two_blocks (fp : FILE) (hp : fp.pos < 9223372036854775808) :
    ((ctar_istarfile fp).1 = true ↔
      1024 ≤ fp.data.length ∧ ∀ b ∈ fp.data.drop (fp.data.length - 1024), b = 0) ∧
    (ctar_istarfile fp).2 = fp ∧ (ctar_istarfile fp).2.pos = fp.pos := by
  by_cases h : fp.data.length < 1024
  · rw [ctar_istarfile_short fp h]
    exact probe_verdict_iff false fp _
      ⟨fun hf => absurd hf Bool.false_ne_true, fun hl => absurd hl.1 (by omega)⟩
  · rw [ctar_istarfile_long fp h hp]
    have htake : (fp.data.drop (fp.data.length - 1024)).take 1024 =
        fp.data.drop (fp.data.length - 1024) :=
      List.take_of_length_le (by simp only [List.length_drop]; omega)
    have hz := ctar_iszeroed_iff (fp.data.drop (fp.data.length - 1024)) 1024
    rw [htake] at hz
    exact probe_verdict_iff (ctar_iszeroed (fp.data.drop (fp.data.length - 1024)) 1024) fp _
      ⟨fun hf => ⟨by omega, hz.mp hf⟩, fun hl => hz.mpr hl.2⟩

/-- Witness for C15: the probe of the example archive, whose stream stands at
offset 11264, answers true and leaves the stream there. -/
theorem probe_last_two_blocks_witness :
    ((ctar_istarfile notesFile).1 = true ↔
      1024 ≤ notesFile.data.length ∧
        ∀ b ∈ notesFile.data.drop (notesFile.data.length - 1024), b = 0) ∧
    (ctar_istarfile notesFile).2 = notesFile ∧
    (ctar_istarfile notesFile).2.pos = notesFile.pos :=
  probe_last_two_blocks notesFile (by decide)

/-- C16 (code at the failing inputs): a read with a null buffer and a seek with
an invalid whence fail and set the global `errno` only; the handle comes back
unchanged, so `tfs_ferror` on a fresh handle still answers 0 after them. The
sibling failures do set the indicator: an out-of-range seek stores `ESPIPE`, a
write stores `EROFS` and leaves the cursor alone, and `tfs_clearerr` resets
it. -/
theorem failing_calls_error_indicator :
    (∀ (s : TFS_FILE) (base : FILE) (size nmemb errno : Nat),
      tfs_fread false size nmemb (.tfs s) base errno = some ⟨0, [], .tfs s, base, ENOSR⟩) ∧
    (∀ (s : TFS_FILE) (offset : Int) (whence errno : Nat), 2 < whence →
      tfs_fseek (.tfs s) offset whence errno = (-1, .tfs s, ESPIPE)) ∧
    (tfs_fread false 1 10 (.tfs notesHandle) notesFile 0).map
        (fun r => (r.ret, r.errno, tfs_ferror r.stream)) = some (0, ENOSR, 0) ∧
    ((tfs_fseek (.tfs notesHandle) 0 7 0).1 = -1 ∧
      (tfs_fseek (.tfs notesHandle) 0 7 0).2.2 = ESPIPE ∧
      tfs_ferror (tfs_fseek (.tfs notesHandle) 0 7 0).2.1 = 0) ∧
    ((tfs_fseek (.tfs notesHandle) 11 SEEK_SET 0).1 = -1 ∧
      tfs_ferror (tfs_fseek (.tfs notesHandle) 11 SEEK_SET 0).2.1 = ESPIPE) ∧
    (∀ s : TFS_FILE, (tfs_fwrite s).1 = 18446744073709551615 ∧ (tfs_fwrite s).2.2 = EROFS ∧
      tfs_ferror (.tfs (tfs_fwrite s).2.1) = EROFS ∧ (tfs_fwrite s).2.1.now_pos = s.now_pos) ∧
    (∀ s : TFS_FILE, tfs_ferror (tfs_clearerr (.tfs s)) = 0) := by
  refine ⟨?_, ?_, ?_, ?_, ?_, ?_, ?_⟩
  · intro s base size nmemb errno
    rfl
  · intro s offset whence errno hw
    have h0 : whence ≠ SEEK_SET := by unfold SEEK_SET; omega
    have h1 : whence ≠ SEEK_CUR := by unfold SEEK_CUR; omega
    have h2 : whence ≠ SEEK_END := by unfold SEEK_END; omega
    unfold tfs_fseek
    simp only [h0, h1, h2, if_false]
  · decide
  · decide
  · decide
  · intro s
    exact ⟨rfl, rfl, rfl, rfl⟩
  · intro s
    rfl

/-- C17 (code at the failing input): `tfs_deinit` on the state with
`notes.txt` loaded clears `tfs_currfile` only; `tfs_rootentry` keeps pointing
at the directory, so a later open of `@/notes.txt` passes the `ENOMEM` guard and
returns a handle (with a null backing stream), and an open of an unknown name
reports `ENOENT`, not `ENOMEM`. Teardown with no stream loaded changes nothing. -/
theorem teardown_keeps_directory :
    tfs_deinit notesState = notesTornDown ∧
    notesTornDown.tfs_rootentry = [notesEntry] ∧
    (∀ (os : OS) (mode : List Nat),
      tfs_fopen os notesTornDown (64 :: 47 :: notesName) mode =
        (some (Stream.tfs { notesHandle with base := none }), notesTornDown)) ∧
    (∀ (os : OS) (mode : List Nat),
      tfs_fopen os notesTornDown [64, 47, 120] mode =
        (none, { notesTornDown with errno := ENOENT })) ∧
    (∀ st : tfs_state, (tfs_deinit st).tfs_rootentry = st.tfs_rootentry ∧
      (tfs_deinit st).tfs_currfile = none) ∧
    (∀ st : tfs_state, st.tfs_currfile = none → tfs_deinit st = st) := by
  refine ⟨by decide!, rfl, ?_, ?_, ?_, ?_⟩
  · intro os mode
    have h1 : firstNamed notesTornDown.tfs_rootentry notesName = some notesEntry := by decide!
    have h2 : isFileLike notesEntry := by decide!
    have h3 : handleFor notesTornDown notesEntry = { notesHandle with base := none } := by
      decide!
    rw [tfs_fopen_found os notesTornDown notesName mode notesEntry h1 h2, h3]
  · intro os mode
    have h1 : firstNamed notesTornDown.tfs_rootentry [120] = none := by decide!
    rw [tfs_fopen_virtual, h1]
    rfl
  · intro st
    unfold tfs_deinit
    cases h : st.tfs_currfile with
    | none => exact ⟨rfl, h⟩
    | some fp => exact ⟨rfl, rfl⟩
  · intro st h
    unfold tfs_deinit
    rw [h]

set_option maxRecDepth 10000 in
/-- C18 (code at the failing input): on `paddedArchive`, where one zero block
precedes the header of `notes.txt`, `ctar_read` returns one entry whose `begin`
is 0 although the block decoded as its header lies at offset 512 of the stream
(the block at offset 0 is the zero block). A handle opened on the entry
therefore has its data region start at 512, and reading ten bytes through it
delivers the first ten bytes of the header instead of the file content; the
handle is the one that loading the stream and opening `@/notes.txt` yield. -/
theorem scan_offset_after_padding :
    (ctar_read paddedFile []).map (fun r => (r.1, r.2.1)) = some (1, [notesEntry]) ∧
    notesEntry.begin = 0 ∧
    (paddedArchive.drop 512).take 512 = notesEntry.block ∧
    (paddedArchive.drop 0).take 512 = zeroBlock ∧
    (paddedArchive.drop 1024).take 10 = notesData ∧
    (tfs_inittarfile (oneFile paddedArchive) ⟨[], none, 0⟩ [116]).map
        (fun st => (st.tfs_rootentry,
          (tfs_fopen (oneFile paddedArchive) st (64 :: 47 :: notesName) [114]).1)) =
      some ([notesEntry], some (Stream.tfs notesHandle)) ∧
    (tfs_fread true 1 10 (.tfs notesHandle) paddedFile 0).map (fun r => (r.ret, r.out)) =
      some (10, notesName ++ [0]) := by
  refine ⟨by decide!, rfl, by decide!, by decide!, by decide!, by decide!, by decide!⟩

set_option maxRecDepth 10000 in
/-- C19 (code at the failing input): on the stream [zero block][header a, size
0][zero block][header b, size 0][zero block][zero block] `ctar_read` returns
the count 1 and links the entry of `a` only: after the padding block the next
round does not read, takes its fresh zero-filled node for a zero block, and the
single zero block that follows `a` then ends the scan. -/
theorem scan_single_zero_block_stops :
    (ctar_read gappedFile []).map (fun r => (r.1, r.2.1)) =
      some (1, [{ original_name := List.replicate 100 0, begin := 0,
                  block := emptyFileHeader 97 }]) ∧
    (gappedArchive.drop 1536).take 512 = emptyFileHeader 98 ∧
    (ctar_istarfile gappedFile).1 = true := by
  refine ⟨by decide!, by decide!, by decide!⟩

/-- C20 (amended): `ctar_oct2uint` stops at the first NUL byte (or at maxLen),
whatever the bytes before it are: for a field whose first NUL sits at index
k < maxLen, the result equals the decode of the first k bytes alone, namely the
fold of `(out << 3) | (unsigned)(c - 48)` over them; a field whose first byte
is NUL decodes to 0. -/
theorem decode_stops_at_nul (pre rest : List Nat) (maxLen : Nat)
    (hpre : ∀ c ∈ pre, c ≠ 0) (hk : pre.length < maxLen) (hz : rest.headD 0 = 0) :
    ctar_oct2uint (pre ++ rest) maxLen = ctar_oct2uint pre maxLen ∧
    ctar_oct2uint (pre ++ rest) maxLen = pre.foldl octStep 0 ∧
    ctar_oct2uint (0 :: rest) maxLen = 0 := by
  have h1 : ctar_oct2uint (pre ++ rest) maxLen = pre.foldl octStep 0 := by
    unfold ctar_oct2uint
    exact ctar_oct2uint_loop_fold pre maxLen rest 0 hpre (by omega) (Or.inr hz)
  have h2 : ctar_oct2uint pre maxLen = pre.foldl octStep 0 := by
    have h := ctar_oct2uint_loop_fold pre maxLen [] 0 hpre (by omega) (Or.inr rfl)
    rw [List.append_nil] at h
    unfold ctar_oct2uint
    exact h
  refine ⟨h1.trans h2.symm, h1, ?_⟩
  unfold ctar_oct2uint
  obtain ⟨k, rfl⟩ : ∃ k, maxLen = k + 1 := ⟨maxLen - 1, by omega⟩
  rw [ctar_oct2uint_loop]
  simp

/-- Witness for C20 (amended): the NUL-terminated field `644` with maxLen 8. -/
theorem decode_stops_at_nul_witness :
    ctar_oct2uint ([54, 52, 52] ++ [0, 0, 0, 0, 0]) 8 = ctar_oct2uint [54, 52, 52] 8 ∧
    ctar_oct2uint ([54, 52, 52] ++ [0, 0, 0, 0, 0]) 8 = [54, 52, 52].foldl octStep 0 ∧
    ctar_oct2uint (0 :: [0, 0, 0, 0, 0]) 8 = 0 :=
  decode_stops_at_nul [54, 52, 52] [0, 0, 0, 0, 0] 8 (by decide) (by decide) rfl

/-- C20 as stated fails: the space-terminated field `644 ` (then NULs) with
maxLen 8 decodes to 4294967280, neither to 420 nor to the decode of its first
three bytes, and a field whose first byte is a space does not decode to 0: the
loop of `ctar_oct2uint` takes the space for a digit. -/
theorem decode_stops_at_nul_counterexample :
    ctar_oct2uint [54, 52, 52, 32, 0, 0, 0, 0] 8 = 4294967280 ∧
    ctar_oct2uint ([54, 52, 52, 32, 0, 0, 0, 0].take 3) 8 = 420 ∧
    ctar_oct2uint [54, 52, 52, 32, 0, 0, 0, 0] 8 ≠
      ctar_oct2uint ([54, 52, 52, 32, 0, 0, 0, 0].take 3) 8 ∧
    ctar_oct2uint [32, 0, 0, 0, 0, 0, 0, 0] 8 ≠ 0 := by
  decide

/-- C21: cursor invariant. A virtual handle comes out of `tfs_fopen` with
cursor 0 <= data_len. On a handle with cursor <= data_len (data_len below 2^63)
every operation leaves a virtual handle whose cursor is <= data_len and whose
data_begin and data_len are unchanged: `tfs_fread` with any buffer pointer,
size and nmemb (and it returns); the read loop over any stdio `fread` that
reports at most the requested number of bytes; `tfs_fseek` with any offset and
whence, failing or not; `tfs_fwrite`; `tfs_clearerr`. `tfs_ftell` and
`tfs_ferror` only read the handle, and `tfs_ftell` answers a value in
0..data_len. -/
theorem cursor_invariant (s : TFS_FILE) (hinv : s.now_pos ≤ s.data_len)
    (hL : s.data_len < 9223372036854775808) :
    (∀ (ptr : Bool) (size nmemb : Nat) (base : FILE) (errno : Nat),
      ∃ r, tfs_fread ptr size nmemb (Stream.tfs s) base errno = some r ∧
        cursorKept s r.stream) ∧
    (∀ (phys : FILE → Nat → Nat × List Nat × FILE) (size : Nat) (base : FILE)
        (count : Int) (out : List Nat), (∀ b n, (phys b n).1 ≤ n) →
      ∃ r, tfs_fread_loop_with phys size (s.data_len - s.now_pos + 1) base s count out =
          some r ∧ cursorKept s (Stream.tfs r.2.2.1)) ∧
    (∀ (offset : Int) (whence errno : Nat),
      cursorKept s (tfs_fseek (Stream.tfs s) offset whence errno).2.1) ∧
    cursorKept s (Stream.tfs (tfs_fwrite s).2.1) ∧
    cursorKept s (tfs_clearerr (Stream.tfs s)) ∧
    (0 ≤ tfs_ftell (Stream.tfs s) ∧ tfs_ftell (Stream.tfs s) ≤ (s.data_len : Int)) ∧
    (∀ (os : OS) (st : tfs_state) (pathname mode : List Nat) (s0 : TFS_FILE),
      (tfs_fopen os st pathname mode).1 = some (Stream.tfs s0) →
        s0.now_pos = 0 ∧ s0.now_pos ≤ s0.data_len ∧ s0.data_len < 9223372036854775808) := by
  refine ⟨?_, ?_, ?_, ⟨hinv, rfl, rfl⟩, ⟨hinv, rfl, rfl⟩, ?_, ?_⟩
  · intro ptr size nmemb base errno
    exact tfs_fread_cursor ptr size nmemb s base errno hinv
  · intro phys size base count out hphys
    obtain ⟨r, hr, h1, _, h3⟩ := tfs_fread_loop_with_cursor phys size hphys
      (s.data_len - s.now_pos + 1) base s count out hinv (by omega)
    refine ⟨r, hr, ?_⟩
    rw [h3]
    exact ⟨by rw [h3] at h1; exact h1, rfl, rfl⟩
  · intro offset whence errno
    exact tfs_fseek_cursor s offset whence errno hinv hL
  · show 0 ≤ toLong (s.now_pos : Int) ∧ toLong (s.now_pos : Int) ≤ (s.data_len : Int)
    rw [toLong_natCast_of_lt (by omega)]
    omega
  · intro os st pathname mode s0 h
    have h2 := tfs_fopen_fresh os st pathname mode s0 h
    omega

/-- Witness for C21: the handle on `notes.txt` (cursor 0, length 10); a seek
by +5 from the end and a seek with an unknown whence both keep the invariant. -/
theorem cursor_invariant_witness :
    notesHandle.now_pos ≤ notesHandle.data_len ∧
    notesHandle.data_len < 9223372036854775808 ∧
    cursorKept notesHandle (tfs_fseek (Stream.tfs notesHandle) 5 SEEK_END 0).2.1 ∧
    cursorKept notesHandle (tfs_fseek (Stream.tfs notesHandle) (-40) 9 0).2.1 ∧
    cursorKept notesHandle (Stream.tfs (tfs_fwrite notesHandle).2.1) :=
  ⟨by decide, by decide,
    (cursor_invariant notesHandle (by decide) (by decide)).2.2.1 5 SEEK_END 0,
    (cursor_invariant notesHandle (by decide) (by decide)).2.2.1 (-40) 9 0,
    (cursor_invariant notesHandle (by decide) (by decide)).2.2.2.1⟩

/-- C22: a read through a virtual handle does not depend on where the shared
backing stream stands. For two backing-stream states with the same bytes (and
identity) and any positions, `tfs_fread` returns on both, with the same count,
the same bytes stored, the same handle afterwards (cursor) and the same
`errno`. Hence, after any read on a first handle, a read on a second handle
over the stream that the first read left behind returns what it returns on the
stream as it was before, and, when the data region of the second handle lies in
the stream, it obtains the bytes of that region from its own cursor on and
leaves its cursor at the end of the region. -/
theorem read_position_independent (ptr : Bool) (size nmemb : Nat) (s : TFS_FILE)
    (b1 b2 : FILE) (errno : Nat) (hd : b1.data = b2.data) (hi : b1.ident = b2.ident) :
    (∃ r1 r2, tfs_fread ptr size nmemb (Stream.tfs s) b1 errno = some r1 ∧
      tfs_fread ptr size nmemb (Stream.tfs s) b2 errno = some r2 ∧
      r1.ret = r2.ret ∧ r1.out = r2.out ∧ r1.stream = r2.stream ∧ r1.errno = r2.errno) ∧
    (∃ r1, tfs_fread ptr size nmemb (Stream.tfs s) b1 errno = some r1 ∧
      r1.base.data = b1.data ∧
      ∀ (ptr2 : Bool) (size2 nmemb2 : Nat) (s2 : TFS_FILE) (errno2 : Nat),
        (∃ q1 q2, tfs_fread ptr2 size2 nmemb2 (Stream.tfs s2) r1.base errno2 = some q1 ∧
          tfs_fread ptr2 size2 nmemb2 (Stream.tfs s2) b1 errno2 = some q2 ∧
          q1.ret = q2.ret ∧ q1.out = q2.out ∧ q1.stream = q2.stream ∧ q1.errno = q2.errno) ∧
        (0 < size2 → s2.now_pos ≤ s2.data_len →
          s2.data_begin + s2.data_len ≤ b1.data.length →
          s2.data_begin + s2.data_len < 9223372036854775808 →
          ∃ q, tfs_fread true size2 nmemb2 (Stream.tfs s2) r1.base errno2 = some q ∧
            q.out = (b1.data.drop (s2.data_begin + s2.now_pos)).take
              (s2.data_len - s2.now_pos) ∧
            q.stream = Stream.tfs { s2 with now_pos := s2.data_len } ∧
            q.ret = toULong (toInt (chunks size2 (s2.data_len - s2.now_pos) : Nat)))) := by
  refine ⟨tfs_fread_pair ptr size nmemb s b1 b2 errno hd hi, ?_⟩
  obtain ⟨r1, h1⟩ := tfs_fread_returns ptr size nmemb s b1 errno
  have hb := tfs_fread_base ptr size nmemb s b1 errno r1 h1
  refine ⟨r1, h1, hb.1, ?_⟩
  intro ptr2 size2 nmemb2 s2 errno2
  refine ⟨tfs_fread_pair ptr2 size2 nmemb2 s2 r1.base b1 errno2 hb.1 hb.2, ?_⟩
  intro hs hc hin hr
  have hfull := tfs_fread_virtual_full size2 nmemb2 s2 r1.base errno2 hs hc
    (by rw [hb.1]; exact hin) hr
  rw [hb.1] at hfull
  exact read_fields _ _ _ _ _ _ hfull

/-- Witness for C22: the 10-byte entry `notes.txt` read through a handle at
cursor 4 from the backing stream at offset 11264 and at offset 3, and then,
over the stream that this read left behind, through a fresh handle, which
obtains the ten bytes `0123456789`. -/
theorem read_position_independent_witness :
    notesFile.data = ({ notesFile with pos := 3 } : FILE).data ∧
    (∃ r1 r2,
      tfs_fread true 4 1 (Stream.tfs { notesHandle with now_pos := 4 }) notesFile 0 = some r1 ∧
      tfs_fread true 4 1 (Stream.tfs { notesHandle with now_pos := 4 })
        { notesFile with pos := 3 } 0 = some r2 ∧
      r1.ret = r2.ret ∧ r1.out = r2.out ∧ r1.stream = r2.stream ∧ r1.errno = r2.errno) ∧
    (∃ r1 q,
      tfs_fread true 4 1 (Stream.tfs { notesHandle with now_pos := 4 }) notesFile 0 = some r1 ∧
      tfs_fread true 5 2 (Stream.tfs notesHandle) r1.base 0 = some q ∧
      q.out = (notesFile.data.drop (notesHandle.data_begin + notesHandle.now_pos)).take
        (notesHandle.data_len - notesHandle.now_pos) ∧
      q.stream = Stream.tfs { notesHandle with now_pos := notesHandle.data_len }) ∧
    (notesFile.data.drop (notesHandle.data_begin + notesHandle.now_pos)).take
      (notesHandle.data_len - notesHandle.now_pos) = notesData :=
  ⟨rfl,
    (read_position_independent true 4 1 { notesHandle with now_pos := 4 } notesFile
      { notesFile with pos := 3 } 0 rfl rfl).1,
    (match (read_position_independent true 4 1 { notesHandle with now_pos := 4 } notesFile
        { notesFile with pos := 3 } 0 rfl rfl).2 with
      | ⟨r1, h1, _, h⟩ =>
        match (h true 5 2 notesHandle 0).2 (by decide) (by decide) (by decide!) (by decide) with
        | ⟨q, hq, hout, hstream, _⟩ => ⟨r1, q, h1, hq, hout, hstream⟩),
    by decide!⟩

/-- C23: the scan terminates on every finite byte stream. `ctar_read` returns
on every stream (with the number of linked nodes as its count) and leaves the
stream position no lower than it found it; a round of its loop, started from
any state, either leaves the loop or has read at least 512 further bytes lying
inside the stream, after which the seek over the data succeeds and moves
forward; with fewer than 512 bytes left (in particular at or past the end of the
stream) the round leaves the loop; and the loop returns whenever its fuel
exceeds the number of whole blocks left. -/
theorem scan_terminates (fp : FILE) (offset : Nat) (count : Int) (update : Bool)
    (archive : List ctar_t) :
    (∃ entries fp2, ctar_read fp [] = some ((entries.length : Int), entries, fp2) ∧
      fp2.data = fp.data ∧ fp.pos ≤ fp2.pos) ∧
    ((∃ fp2, ctar_read_head fp offset count update archive = Sum.inl (count, archive, fp2) ∧
        fp.pos ≤ fp2.pos) ∨
      (∃ block fp1 update1,
        ctar_read_head fp offset count update archive = Sum.inr (block, fp1, update1) ∧
        fp.pos + 512 ≤ fp1.pos ∧ fp1.pos ≤ fp.data.length ∧
        (ctar_read_entry fp1 offset block).2.2.1 = 0 ∧
        fp1.pos ≤ (ctar_read_entry fp1 offset block).2.2.2.pos)) ∧
    (fp.data.length < fp.pos + 512 →
      ∃ fp2, ctar_read_head fp offset count update archive = Sum.inl (count, archive, fp2) ∧
        fp.pos ≤ fp2.pos) ∧
    (∀ fuel, (fp.data.length - fp.pos) / 512 < fuel →
      ∃ es fp2, ctar_read_loop fuel fp offset count update archive =
          some (count + (es.length : Int), archive ++ es, fp2) ∧
        fp2.data = fp.data ∧ fp.pos ≤ fp2.pos) := by
  refine ⟨?_, ?_, ctar_read_head_eof fp offset count update archive, ?_⟩
  · obtain ⟨es, fp2, h, hd, _, hp⟩ := ctar_read_loop_total (fp.data.length + 1) fp 0 0 true []
      (by
        have : (fp.data.length - fp.pos) / 512 ≤ fp.data.length - fp.pos := Nat.div_le_self _ _
        omega)
    refine ⟨es, fp2, ?_, hd, hp⟩
    unfold ctar_read
    simp only [List.isEmpty_nil, if_true, h, Int.zero_add, List.nil_append]
  · rcases ctar_read_head_cases fp offset count update archive with
      ⟨fp2, h1, _, _, hp⟩ | ⟨block, fp1, update1, h1, _, _, hp1, hp2, _⟩
    · exact Or.inl ⟨fp2, h1, hp⟩
    · have hf := ctar_read_entry_forward fp1 offset block
      exact Or.inr ⟨block, fp1, update1, h1, hp1, hp2, hf.1, hf.2.1⟩
  · intro fuel hfuel
    obtain ⟨es, fp2, h, hd, _, hp⟩ :=
      ctar_read_loop_total fuel fp offset count update archive hfuel
    exact ⟨es, fp2, h, hd, hp⟩

end Tfs
